import Mathlib

/-!
# Verification of the minny device REPL protocol driver

Shallow embedding of the core protocol code of `minny` (`src/minny/target.py`,
`src/minny/bare_metal_target.py`, `src/minny/util.py`) and proofs of the frozen
claims about it.

Bytes are modelled as `Nat` (with the convention that real bytes are `< 256`;
the bound is stated explicitly where it matters).  Byte strings are `List Nat`.

The byte transport (`minny/connection.py`, class `MicroPythonConnection`) is
imported by the sources but its file is not part of the source tree, so the
transport is modelled from the specification's Byte Transport contract
(spec section 4.1): soft reads with a timeout, `read_until`, `unread`
pushback and `incoming_is_empty`.  Arrival timing is discretized into
"bursts": bytes of one burst are available together; a timed-out read lets
the next burst arrive.
-/

namespace Minny

/-- Protocol constants (target.py lines 27-90). -/
def EOT : List Nat := [0x04]

def RAW_PROMPT : List Nat := [0x3e]  -- b">"

def NORMAL_PROMPT : List Nat := [0x3e, 0x3e, 0x3e, 0x20]  -- b">>> "

/-- b"raw REPL; CTRL-B to exit\r\n>" -/
def FIRST_RAW_PROMPT : List Nat :=
  [114, 97, 119, 32, 82, 69, 80, 76, 59, 32, 67, 84, 82, 76, 45, 66, 32,
   116, 111, 32, 101, 120, 105, 116, 13, 10, 62]

/-- b"raw REPL; CTRL-B to exit\r\r\n>" (W600 variant) -/
def W600_FIRST_RAW_PROMPT : List Nat :=
  [114, 97, 119, 32, 82, 69, 80, 76, 59, 32, 67, 84, 82, 76, 45, 66, 32,
   116, 111, 32, 101, 120, 105, 116, 13, 13, 10, 62]

def LF : List Nat := [0x0a]

def ESC : List Nat := [0x1b]

def ST : List Nat := [0x1b, 0x5c]  -- b"\x1b\\"

def OK_RESP : List Nat := [0x4f, 0x4b]  -- b"OK"

/-- b"Traceback (most recent call last):" -/
def TRACEBACK_MARKER : List Nat :=
  [84, 114, 97, 99, 101, 98, 97, 99, 107, 32, 40, 109, 111, 115, 116, 32,
   114, 101, 99, 101, 110, 116, 32, 99, 97, 108, 108, 32, 108, 97, 115,
   116, 41, 58]

def RAW_PASTE_COMMAND : List Nat := [0x05, 0x41, 0x01]  -- b"\x05A\x01"

def RAW_PASTE_REFUSAL : List Nat := [0x52, 0x00]  -- b"R\x00"

def RAW_PASTE_CONFIRMATION : List Nat := [0x52, 0x01]  -- b"R\x01"

/-! ## C10: `ends_overlap` (target.py lines 1934-1941) -/

/-- `ends_overlap(left, right)`: length of the maximum overlap between the end
of `left` and the start of `right`.  Embeds the Python loop
`for i in range(max_overlap, 0, -1): if left.endswith(right[:i]): return i`
via a descending helper. -/
def endsOverlapFrom (left right : List Nat) : Nat → Nat
  | 0 => 0
  | (i+1) => if (right.take (i+1)).isSuffixOf left then i + 1 else endsOverlapFrom left right i

def ends_overlap (left right : List Nat) : Nat :=
  endsOverlapFrom left right (min left.length right.length)

/-! ## C9: `_should_hexlify` (target.py lines 1847-1855) -/

/-- ASCII lowercase of one byte/char code, as `str.lower()` does for ASCII. -/
def asciiLower (c : Nat) : Nat :=
  if 65 ≤ c ∧ c ≤ 90 then c + 32 else c

/-- `.py`, `.txt`, `.csv` as char-code lists. -/
def TEXT_EXTENSIONS : List (List Nat) :=
  [[46, 112, 121], [46, 116, 120, 116], [46, 99, 115, 118]]

/-- `_should_hexlify(path)` over the set of builtin module names (each name a
char-code list) and the path (a char-code list).  Straight from the source:
returns `false` when neither `binascii` nor `ubinascii` is a builtin module,
`false` when the lower-cased path ends with a text extension, else `true`. -/
def should_hexlify (builtinModules : List (List Nat)) (path : List Nat) : Bool :=
  -- "binascii", "ubinascii"
  if ¬ (builtinModules.contains [98, 105, 110, 97, 115, 99, 105, 105]
        ∨ builtinModules.contains [117, 98, 105, 110, 97, 115, 99, 105, 105]) then
    false
  else if TEXT_EXTENSIONS.any (fun ext => ext.isSuffixOf (path.map asciiLower)) then
    false
  else
    true

/-- The hexlify condition as claim C9 words it: hex-encode exactly when the
binary-safe module is *missing* (and the extension is not textual). -/
def claimC9_hexCondition (builtinModules : List (List Nat)) (path : List Nat) : Bool :=
  (¬ (builtinModules.contains [98, 105, 110, 97, 115, 99, 105, 105]
      ∨ builtinModules.contains [117, 98, 105, 110, 97, 115, 99, 105, 105])
   ∧ ¬ TEXT_EXTENSIONS.any (fun ext => ext.isSuffixOf (path.map asciiLower)) : Prop)

/-! ## C8: paste-mode block splitting (target.py lines 639-679,
`util.py` lines 105-110) -/

/-- `util.starts_with_continuation_byte` / `is_continuation_byte`. -/
def is_continuation_byte (b : Nat) : Bool :=
  b &&& 0b11000000 == 0b10000000

def starts_with_continuation_byte (data : List Nat) : Bool :=
  match data with
  | [] => false
  | b :: _ => is_continuation_byte b

/-- b"=== " -/
def PASTE_MODE_LINE_PREFIX : List Nat := [61, 61, 61, 32]

/-- `block.replace(b"\r\n", b"\r\n" + PASTE_MODE_LINE_PREFIX)`: the expected
echo of a paste-mode block. -/
def pasteExpectedEcho : List Nat → List Nat
  | [] => []
  | 13 :: 10 :: rest => 13 :: 10 :: (PASTE_MODE_LINE_PREFIX ++ pasteExpectedEcho rest)
  | b :: rest => b :: pasteExpectedEcho rest

/-- The inner `while True` boundary-shrinking loop of
`_submit_code_via_paste_mode`: shrink the block (moving its last byte back in
front of the remaining script) while the expected echo is longer than the
write block size, the block ends with CR, or the block is longer than 2 bytes
and the remainder starts with a UTF-8 continuation byte.  The block is passed
REVERSED (head = last byte of the block) so the recursion is structural; the
returned block is in normal order. -/
def pasteShrinkRev (writeBlockSize : Nat) :
    List Nat → List Nat → (List Nat × List Nat)
  | [], scriptBytes => ([], scriptBytes)
  | b :: rb, scriptBytes =>
    if (pasteExpectedEcho (b :: rb).reverse).length > writeBlockSize
        ∨ b = 13
        ∨ ((b :: rb).length > 2 ∧ starts_with_continuation_byte scriptBytes) then
      pasteShrinkRev writeBlockSize rb (b :: scriptBytes)
    else
      ((b :: rb).reverse, scriptBytes)

def pasteShrinkBlock (writeBlockSize : Nat) (block scriptBytes : List Nat) :
    List Nat × List Nat :=
  pasteShrinkRev writeBlockSize block.reverse scriptBytes

/-- The outer `while script_bytes:` loop of `_submit_code_via_paste_mode`,
returning the list of transmitted blocks.  `fuel` bounds the number of
iterations (the Python loop is not structurally decreasing: a block shrunk to
empty makes no progress); `none` means the loop did not finish within `fuel`
iterations. -/
def pasteBlocks (writeBlockSize : Nat) : Nat → List Nat → Option (List (List Nat))
  | 0, scriptBytes => if scriptBytes = [] then some [] else none
  | fuel + 1, scriptBytes =>
    if scriptBytes = [] then some []
    else
      let block := scriptBytes.take writeBlockSize
      let rest := scriptBytes.drop writeBlockSize
      let (block', rest') := pasteShrinkBlock writeBlockSize block rest
      match pasteBlocks writeBlockSize fuel rest' with
      | none => none
      | some blocks => some (block' :: blocks)

/-! ## C5: read-only-filesystem latch (bare_metal_target.py) -/

/-- `_contains_read_only_error` (target.py lines 1857-1861): after removing
dashes and lower-casing, the output must contain "readonly", "errno 30" or
"oserror: 30".  Strings as char-code lists. -/
def canonicOut (s : List Nat) : List Nat :=
  (s.filter (fun c => c ≠ 45)).map asciiLower

def contains_read_only_error (s : List Nat) : Bool :=
  -- "readonly"
  decide ([114, 101, 97, 100, 111, 110, 108, 121] <:+: canonicOut s)
  -- "errno 30"
  || decide ([101, 114, 114, 110, 111, 32, 51, 48] <:+: canonicOut s)
  -- "oserror: 30"
  || decide ([111, 115, 101, 114, 114, 111, 114, 58, 32, 51, 48] <:+: canonicOut s)

/-- Decimal digit byte, the regex `\d` over ASCII. -/
def isDigitByte (b : Nat) : Bool :=
  decide (48 ≤ b ∧ b ≤ 57)

/-- Value of the first digit run in the list, if any: the lazy `.*?`
advances to the first digit, the greedy `(\d+)` then takes the maximal run,
and `int` reads it as decimal. -/
def firstDigitRun : List Nat → Option Nat
  | [] => none
  | b :: rest =>
    if isDigitByte b then
      some (((b :: rest).takeWhile isDigitByte).foldl (fun a c => 10 * a + (c - 48)) 0)
    else firstDigitRun rest

/-- Split at LF bytes.  Under `re.MULTILINE` the anchor `^` matches exactly
at these line starts, and neither `.` nor `\d` crosses an LF, so the
`^OSError:.*?(\d+)` search decomposes line by line. -/
def splitLines : List Nat → List (List Nat)
  | [] => [[]]
  | b :: rest =>
    if b = 10 then [] :: splitLines rest
    else
      match splitLines rest with
      | [] => [[b]]
      | l :: ls => (b :: l) :: ls

/-- Char codes of "OSError:". -/
def OSERROR_HEAD : List Nat := [79, 83, 69, 114, 114, 111, 114, 58]

/-- Match of `^OSError:.*?(\d+)` within one line: the line must start with
"OSError:" and carry a digit somewhere after it. -/
def osErrnoOfLine (line : List Nat) : Option Nat :=
  if OSERROR_HEAD.isPrefixOf line then firstDigitRun (line.drop 8) else none

/-- `re.search(r"^OSError:.*?(\d+)", s, flags=re.MULTILINE)` followed by
`int(m.group(1))`: the leftmost match sits on the first line that starts
with "OSError:" and contains a digit, and yields that line's first digit
run. -/
def findOsErrno (s : List Nat) : Option Nat :=
  (splitLines s).findSome? osErrnoOfLine

/-- Outcome of the `_execute_*_expect_os_error` helpers (target.py lines
1376-1391): clean output, an `OSError` with a parsed errno, or a
`ManagementError` carrying `out + err`. -/
inductive ExpectOsResult where
  | ok (out : List Nat)
  | osError (errno : Nat)
  | mgmtError (text : List Nat)
  deriving DecidableEq, Repr

/-- `_execute_and_capture_output_expect_os_error` (target.py lines
1381-1391) on the captured `(out, err)`: with non-empty `err` the regex
`^OSError:.*?(\d+)` is searched in `err`; a match with non-zero value (the
`if os_errno:` truthiness test) raises `OSError(os_errno)`, otherwise a
`ManagementError` with this `out` and `err` is raised. -/
def execute_and_capture_output_expect_os_error (out err : List Nat) : ExpectOsResult :=
  if err ≠ [] then
    match findOsErrno err with
    | some n => if n ≠ 0 then .osError n else .mgmtError (out ++ err)
    | none => .mgmtError (out ++ err)
  else .ok out

/-- `_execute_without_output_expect_os_error` (target.py lines 1376-1379):
left-over clean output raises a `ManagementError` whose `err` part is
empty. -/
def execute_without_output_expect_os_error (out err : List Nat) : ExpectOsResult :=
  match execute_and_capture_output_expect_os_error out err with
  | .ok o => if o ≠ [] then .mgmtError o else .ok []
  | r => r

/-- Host `errno` module constants consulted by the remove helpers
(CPython on Linux; the source additionally hardcodes 39 next to
`errno.ENOTEMPTY` for the device's Linux-flavoured value). -/
def ENOENT : Nat := 2

def ENODEV : Nat := 19

def ENOTEMPTY : Nat := 39

/-- Visible behaviour of one REPL remove attempt: returned `True`,
returned `False` (a tolerated errno), re-raised an `OSError`, or let a
`ManagementError` propagate. -/
inductive ReplRemoveResult where
  | removed
  | skipped
  | raisedOs (errno : Nat)
  | raisedMgmt (text : List Nat)
  deriving DecidableEq, Repr

/-- `remove_file_if_exists_via_repl` (target.py lines 1507-1515): an
`OSError` with errno in `[errno.ENOENT, errno.ENODEV]` returns `False`;
any other `OSError` is re-raised; a `ManagementError` propagates. -/
def remove_file_if_exists_via_repl (out err : List Nat) : ReplRemoveResult :=
  match execute_without_output_expect_os_error out err with
  | .ok _ => .removed
  | .osError n => if n = ENOENT ∨ n = ENODEV then .skipped else .raisedOs n
  | .mgmtError t => .raisedMgmt t

/-- `_remove_dir_if_empty_via_repl` (target.py lines 1491-1502): an
`OSError` with errno in `[errno.ENOTEMPTY, 39]` returns `False`; any other
`OSError` is re-raised; a `ManagementError` propagates. -/
def remove_dir_if_empty_via_repl (out err : List Nat) : ReplRemoveResult :=
  match execute_without_output_expect_os_error out err with
  | .ok _ => .removed
  | .osError n => if n = ENOTEMPTY ∨ n = 39 then .skipped else .raisedOs n
  | .mgmtError t => .raisedMgmt t

/-- A typical device traceback line for a read-only filesystem,
"OSError: [Errno 30] Read-only filesystem": its canonicalized text matches
the read-only patterns ("errno 30", "readonly"), yet the
`^OSError:.*?(\d+)` parse wins first and turns it into `OSError(30)`. -/
def ROFS_OSERROR_LINE : List Nat :=
  [79, 83, 69, 114, 114, 111, 114, 58, 32, 91, 69, 114, 114, 110, 111, 32,
   51, 48, 93, 32, 82, 101, 97, 100, 45, 111, 110, 108, 121, 32, 102, 105,
   108, 101, 115, 121, 115, 116, 101, 109]

/-! ## C5: read-only-filesystem latch state machine
(bare_metal_target.py lines 262-290, 365-384, 479-490, 511-522)

The REPL-substrate attempts are abstracted by the device response they
would capture: for `_write_file_via_repl` the output of the opening script
(the source raises `ReadOnlyFilesystemError` when
`_contains_read_only_error` matches it, an `OSError` when it is otherwise
non-empty); for the remove helpers the `(out, err)` pair fed through
`_execute_without_output_expect_os_error`; for
`_delete_recursively_via_repl`, which runs its script with the plain
`_execute_without_output`, an optional `ManagementError` text (`out + err`).
The mounted-volume and WebREPL paths are abstracted to the substrate tag. -/

/-- Which substrate an operation touched, in order. `replSync` is the
trailing `_sync_remote_filesystem()` management command of
`delete_recursively` (a REPL execution, but not a REPL filesystem-write
attempt). -/
inductive Substrate where
  | repl
  | mount
  | webrepl
  | replSync
  deriving DecidableEq, Repr

/-- Per-manager configuration bits consulted by the fallback logic. -/
structure BareMetalConfig where
  connectedOverWebrepl : Bool
  supportsDirectories : Bool

/-- One write/delete operation together with the device response its REPL
attempt would capture: for `writeFile` the opening script's output (`[]` =
opened fine), for the removes the raw `(out, err)` pair, for `deleteRec`
`none` = success and `some t` = a `ManagementError` whose `out + err` is
`t`. -/
inductive FsOp where
  | writeFile (openOutput : List Nat)
  | removeFile (out err : List Nat)
  | removeDir (out err : List Nat)
  | deleteRec (outcome : Option (List Nat))

/-- Result of one operation: the (possibly newly latched) read-only flag,
the substrates attempted in order, and whether the device error was
re-raised to the caller. -/
structure FsOpResult where
  readOnly : Bool
  attempts : List Substrate
  raised : Bool

/-- `BareMetalTargetManager.write_file_ex` (lines 365-384): WebREPL protocol
when connected that way; mount when the read-only flag is latched; otherwise
the REPL path, latching the flag and falling back to mount on
`ReadOnlyFilesystemError` (raised by `_write_file_via_repl` when the opening
script's output matches the read-only patterns, lines 1608-1624 of
target.py; other non-empty output raises `OSError`, not caught here). -/
def write_file_ex (cfg : BareMetalConfig) (ro : Bool) (openOutput : List Nat) : FsOpResult :=
  if cfg.connectedOverWebrepl then
    { readOnly := ro, attempts := [.webrepl], raised := false }
  else if ro then
    { readOnly := ro, attempts := [.mount], raised := false }
  else if contains_read_only_error openOutput then
    { readOnly := true, attempts := [.repl, .mount], raised := false }
  else if openOutput ≠ [] then
    { readOnly := ro, attempts := [.repl], raised := true }
  else
    { readOnly := ro, attempts := [.repl], raised := false }

/-- `remove_file_if_exists` (lines 511-522): mount path when the read-only
flag is latched; otherwise the REPL attempt, latching the flag and falling
back to mount only when a `ManagementError` with read-only-matching text
escapes it — an `OSError` re-raised by the helper (any errno-formatted
error line) is not caught here and propagates without latching. -/
def remove_file_if_exists (ro : Bool) (out err : List Nat) : FsOpResult :=
  if ro then
    { readOnly := ro, attempts := [.mount], raised := false }
  else
    match remove_file_if_exists_via_repl out err with
    | .removed => { readOnly := ro, attempts := [.repl], raised := false }
    | .skipped => { readOnly := ro, attempts := [.repl], raised := false }
    | .raisedOs _ => { readOnly := ro, attempts := [.repl], raised := true }
    | .raisedMgmt t =>
      if contains_read_only_error t then
        { readOnly := true, attempts := [.repl, .mount], raised := false }
      else
        { readOnly := ro, attempts := [.repl], raised := true }

/-- `remove_dir_if_empty` (lines 479-490): same handler shape as
`remove_file_if_exists` — only `ManagementError` is caught. -/
def remove_dir_if_empty (ro : Bool) (out err : List Nat) : FsOpResult :=
  if ro then
    { readOnly := ro, attempts := [.mount], raised := false }
  else
    match remove_dir_if_empty_via_repl out err with
    | .removed => { readOnly := ro, attempts := [.repl], raised := false }
    | .skipped => { readOnly := ro, attempts := [.repl], raised := false }
    | .raisedOs _ => { readOnly := ro, attempts := [.repl], raised := true }
    | .raisedMgmt t =>
      if contains_read_only_error t then
        { readOnly := true, attempts := [.repl, .mount], raised := false }
      else
        { readOnly := ro, attempts := [.repl], raised := true }

/-- `delete_recursively` (lines 262-290).  On targets without directory
support (micro:bit) it always deletes through the REPL, ignoring the
read-only flag; otherwise it mirrors the other operations' fallback and runs
`_sync_remote_filesystem()` afterwards. -/
def delete_recursively (cfg : BareMetalConfig) (ro : Bool)
    (outcome : Option (List Nat)) : FsOpResult :=
  if ¬ cfg.supportsDirectories then
    match outcome with
    | none => { readOnly := ro, attempts := [.repl], raised := false }
    | some _ => { readOnly := ro, attempts := [.repl], raised := true }
  else if ro then
    { readOnly := ro, attempts := [.mount, .replSync], raised := false }
  else
    match outcome with
    | none => { readOnly := ro, attempts := [.repl, .replSync], raised := false }
    | some t =>
      if contains_read_only_error t then
        { readOnly := true, attempts := [.repl, .mount, .replSync], raised := false }
      else
        { readOnly := ro, attempts := [.repl], raised := true }

/-- Dispatch one operation. -/
def fsOpStep (cfg : BareMetalConfig) (ro : Bool) : FsOp → FsOpResult
  | .writeFile openOutput => write_file_ex cfg ro openOutput
  | .removeFile out err => remove_file_if_exists ro out err
  | .removeDir out err => remove_dir_if_empty ro out err
  | .deleteRec outcome => delete_recursively cfg ro outcome

/-- Run a sequence of operations in one session, threading the read-only
flag; returns the final flag and each operation's substrate attempts. -/
def runFsOps (cfg : BareMetalConfig) : Bool → List FsOp → Bool × List (List Substrate)
  | ro, [] => (ro, [])
  | ro, op :: ops =>
    ((runFsOps cfg (fsOpStep cfg ro op).readOnly ops).1,
     (fsOpStep cfg ro op).attempts :: (runFsOps cfg (fsOpStep cfg ro op).readOnly ops).2)

/-- The operation's REPL attempt reports the read-only-filesystem condition
in the one form its handler latches on: a `ReadOnlyFilesystemError` for
writes, a propagating `ManagementError` with matching text for the delete
operations.  (An errno-formatted error line is turned into an `OSError`
before the remove handlers see it and therefore never latches, whatever
its text matches.) -/
def observesReadOnly : FsOp → Prop
  | .writeFile openOutput => contains_read_only_error openOutput = true
  | .removeFile out err => ∃ t, remove_file_if_exists_via_repl out err = .raisedMgmt t
      ∧ contains_read_only_error t = true
  | .removeDir out err => ∃ t, remove_dir_if_empty_via_repl out err = .raisedMgmt t
      ∧ contains_read_only_error t = true
  | .deleteRec outcome => ∃ t, outcome = some t ∧ contains_read_only_error t = true

/-! ## C2: scripted-REPL file transfer
(`_write_file_via_repl` target.py lines 1601-1720, `_read_file_via_repl`
lines 1534-1583, `write_file`/`read_file` wrappers lines 228-253)

The remote Python interpreter is abstracted to its file-system effect: the
`__W(x)` helper appends the (un-hexlified, in hex mode) bytes to the opened
file and adds the written length to `__thonny_written`; the remote
`__thonny_fp.read(block_size)` yields the next `block_size` bytes of the
file (hexlified on the device in hex mode, un-hexlified by the host with
`binascii.unhexlify`).  The byte transport underneath `_execute`/`_evaluate`
is not modelled here; each management call is taken to deliver its payload
exactly (the happy path the claim describes). -/

/-- `binascii.hexlify`: each byte to two lowercase hex digit chars. -/
def hexDigitChar (n : Nat) : Nat :=
  if n < 10 then 48 + n else 87 + n

def hexlify : List Nat → List Nat
  | [] => []
  | b :: rest => hexDigitChar (b / 16) :: hexDigitChar (b % 16) :: hexlify rest

/-- `binascii.unhexlify` (value of one hex digit char). -/
def hexDigitVal (c : Nat) : Nat :=
  if 48 ≤ c ∧ c ≤ 57 then c - 48
  else if 97 ≤ c ∧ c ≤ 102 then c - 87
  else if 65 ≤ c ∧ c ≤ 70 then c - 55
  else 0

def unhexlify : List Nat → List Nat
  | c1 :: c2 :: rest => (hexDigitVal c1 * 16 + hexDigitVal c2) :: unhexlify rest
  | _ => []

/-- What one transmitted block deposits on the device: in hex mode the block
is hexlified by the host and un-hexlified by the remote `__W` helper. -/
def blockOnDevice (hexMode : Bool) (block : List Nat) : List Nat :=
  if hexMode then unhexlify (hexlify block) else block

/-- The `while True` send loop of `_write_file_via_repl` (lines 1670-1695):
state is (remaining source, device file bytes, device `__thonny_written`
counter, host `bytes_sent`).  `fuel` bounds the iterations. -/
def writeLoopRepl (hexMode : Bool) (bs : Nat) :
    Nat → List Nat → List Nat → Nat → Nat → Option (List Nat × Nat × Nat)
  | 0, _, _, _, _ => none
  | fuel + 1, src, file, counter, sent =>
    let block := src.take bs
    if block = [] then
      if block.length < bs then some (file, counter, sent) else none
    else
      let dev := blockOnDevice hexMode block
      if block.length < bs then
        some (file ++ dev, counter + dev.length, sent + block.length)
      else
        writeLoopRepl hexMode bs fuel (src.drop bs) (file ++ dev)
          (counter + dev.length) (sent + block.length)

/-- `_write_file_via_repl` for a file that opens successfully: run the send
loop, then compare the device's counted total (`_evaluate "__thonny_written"`)
with `bytes_sent` — a mismatch is the hard `OSError` (lines 1697-1700).
Returns the final device file bytes and the returned byte count. -/
def write_file_via_repl (hexMode : Bool) (bs fuel : Nat) (content : List Nat) :
    Option (List Nat × Nat) :=
  match writeLoopRepl hexMode bs fuel content [] 0 0 with
  | none => none
  | some (file, counter, sent) => if counter = sent then some (file, sent) else none

/-- The `while True` receive loop of `_read_file_via_repl` (lines 1552-1568):
state is (remaining device file bytes, host sink, `num_bytes_read`).
In hex mode the device hexlifies each block and the host un-hexlifies it. -/
def readLoopRepl (hexMode : Bool) (bs : Nat) :
    Nat → List Nat → List Nat → Nat → Option (List Nat × Nat)
  | 0, _, _, _ => none
  | fuel + 1, remaining, sink, nread =>
    let block := if hexMode then unhexlify (hexlify (remaining.take bs))
                 else remaining.take bs
    let sink' := if block = [] then sink else sink ++ block
    let nread' := if block = [] then nread else nread + block.length
    if block.length < bs then some (sink', nread')
    else readLoopRepl hexMode bs fuel (remaining.drop bs) sink' nread'

/-- `_read_file_via_repl`: returns the sink contents and `num_bytes_read`. -/
def read_file_via_repl (hexMode : Bool) (bs fuel : Nat) (file : List Nat) :
    Option (List Nat × Nat) :=
  readLoopRepl hexMode bs fuel file [] 0

/-! ## C7: `_evaluate` (target.py lines 1393-1431)

Host-side post-processing of the captured `(out, err)` of an evaluation
script.  The helper installed on the device (target.py lines 470-529,
`print_mgmt_value`) prints `"<minny>" + repr(obj) + "</minny>"` around the
value, so the device output for a successful evaluation is the wrapped
`repr`, possibly surrounded by stray output from background threads.
`ast.literal_eval` is an external library; it is modelled for the literal
subset the claims exercise (decimal integers and single-quoted strings
without escapes), with `none` for text on which the real function raises. -/

def quoteChar : Char := Char.ofNat 39

def backslashChar : Char := Char.ofNat 92

/-- Values produced by the modelled literal evaluator. -/
inductive PyVal where
  | int (n : Int)
  | str (s : List Char)
  deriving DecidableEq

def parseDigitsAux : List Char → Nat → Option Nat
  | [], acc => some acc
  | c :: rest, acc =>
    if c.isDigit then parseDigitsAux rest (acc * 10 + (c.toNat - 48)) else none

def parseDigits : List Char → Option Nat
  | [] => none
  | l => parseDigitsAux l 0

/-- Model of `ast.literal_eval` on decimal integer literals (with optional
leading minus) and single-quoted strings without quotes/backslashes inside.
`none` where the real function raises (e.g. on the empty string). -/
def literalEval (s : List Char) : Option PyVal :=
  match s with
  | [] => none
  | c :: rest =>
    if c = '-' then (parseDigits rest).map (fun n => PyVal.int (-(n : Int)))
    else if c = quoteChar then
      if rest.getLast? = some quoteChar
          ∧ rest.dropLast.all (fun d => d ≠ quoteChar ∧ d ≠ backslashChar) then
        some (.str rest.dropLast)
      else none
    else (parseDigits s).map (fun n => PyVal.int n)

/-- `MGMT_VALUE_START.decode(ENCODING)` as chars. -/
def MGMT_VALUE_START_S : List Char := ['<', 'm', 'i', 'n', 'n', 'y', '>']

/-- `MGMT_VALUE_END.decode(ENCODING)` as chars. -/
def MGMT_VALUE_END_S : List Char := ['<', '/', 'm', 'i', 'n', 'n', 'y', '>']

/-- `str.index`: position of the first occurrence of `pat`, `none` if absent
(the source guards `index` with an `in` check). -/
def strIndexOfAux (pat : List Char) : List Char → Nat → Option Nat
  | [], i => if pat = [] then some i else none
  | c :: rest, i =>
    if pat.isPrefixOf (c :: rest) then some i else strIndexOfAux pat rest (i + 1)

def strIndexOf (hay pat : List Char) : Option Nat :=
  strIndexOfAux pat hay 0

/-- The three `ManagementError` cases of `_evaluate`. -/
inductive MgmtErr where
  | scriptErrors
  | markersMissing
  | parseFailed
  deriving DecidableEq

/-- `_evaluate`'s handling of the captured output (lines 1407-1431): error
when stderr is non-empty; error when either delimiter is missing; otherwise
slice out the enclosed text (Python slice semantics: an end position before
the start yields the empty string), parse it as a literal (error on
failure), and return the value together with the prefix and suffix text that
are re-emitted to the normal output stream. -/
def evaluateOutput (out err : List Char) : Except MgmtErr (PyVal × List Char × List Char) :=
  if err ≠ [] then .error .scriptErrors
  else
    match strIndexOf out MGMT_VALUE_START_S, strIndexOf out MGMT_VALUE_END_S with
    | some startPos, some endPos =>
      match literalEval ((out.drop (startPos + MGMT_VALUE_START_S.length)).take
          (endPos - (startPos + MGMT_VALUE_START_S.length))) with
      | some v => .ok (v, out.take startPos, out.drop (endPos + MGMT_VALUE_END_S.length))
      | none => .error .parseFailed
    | _, _ => .error .markersMissing

/-! ## The byte transport

`minny/connection.py` (class `MicroPythonConnection`) is imported by
`target.py` but is not part of the source tree under `src/`.

Modelled from the spec: the Byte Transport contract of spec section 4.1 —
`read(n, timeout)` blocking up to the timeout and returning fewer bytes as a
"soft" read, `read_until(marker|regex, timeout)`, `unread(bytes)` pushback,
and `incoming_is_empty()`.  A background reader continuously appends
arriving bytes; arrival timing is discretized into BURSTS: `avail` is what
has already arrived, `future` the bursts still to arrive, one per elapsed
timeout window.  A short-timeout read (tens of milliseconds) serves only
already-available bytes; when nothing is available it times out empty and
the next burst arrives.  A long-timeout read (hundreds of milliseconds to
seconds) waits for bursts until data is available. -/

structure Conn where
  avail : List Nat
  future : List (List Nat)
  deriving DecidableEq, Repr

/-- `soft_read(n, timeout=<long>)`: wait for data, then return at most `n`
bytes of the burst; empty when the stream is exhausted.  Structural
recursion on the burst list. -/
def softReadLongAux (n : Nat) : List Nat → List (List Nat) → (List Nat × Conn)
  | [], [] => ([], ⟨[], []⟩)
  | [], c :: future => softReadLongAux n c future
  | a :: avail, future => ((a :: avail).take n, ⟨(a :: avail).drop n, future⟩)

def softReadLong (n : Nat) (c : Conn) : List Nat × Conn :=
  softReadLongAux n c.avail c.future

/-- `soft_read(1, timeout=<short>)`: serve one already-available byte or
time out empty (the next burst arriving meanwhile). -/
def softRead1Short : Conn → (List Nat × Conn)
  | ⟨b :: avail, future⟩ => ([b], ⟨avail, future⟩)
  | ⟨[], []⟩ => ([], ⟨[], []⟩)
  | ⟨[], c :: future⟩ => ([], ⟨c, future⟩)

/-- `unread(data)`: push bytes back for re-reading. -/
def Conn.unread (c : Conn) (data : List Nat) : Conn :=
  ⟨data ++ c.avail, c.future⟩

/-- `incoming_is_empty()`: no byte currently available. -/
def Conn.incomingIsEmpty (c : Conn) : Bool :=
  c.avail.isEmpty

/-- First position where `pat` starts in the byte list. -/
def bytesIndexOfAux (pat : List Nat) : List Nat → Nat → Option Nat
  | [], i => if pat = [] then some i else none
  | c :: rest, i =>
    if pat.isPrefixOf (c :: rest) then some i else bytesIndexOfAux pat rest (i + 1)

/-- `soft_read_until(marker, timeout=<long>)`: accumulate bursts until the
marker appears, returning through the end of the first occurrence; on
exhaustion return everything read. -/
def softReadUntilLongAux (marker : List Nat) : List Nat → List (List Nat) → (List Nat × Conn)
  | avail, [] =>
    match bytesIndexOfAux marker avail 0 with
    | some i => (avail.take (i + marker.length), ⟨avail.drop (i + marker.length), []⟩)
    | none => (avail, ⟨[], []⟩)
  | avail, b :: fs =>
    match bytesIndexOfAux marker avail 0 with
    | some i => (avail.take (i + marker.length), ⟨avail.drop (i + marker.length), b :: fs⟩)
    | none => softReadUntilLongAux marker (avail ++ b) fs

def softReadUntilLong (marker : List Nat) (c : Conn) : List Nat × Conn :=
  softReadUntilLongAux marker c.avail c.future

/-! ## C4: `_raw_paste_write` (target.py lines 747-795) -/

/-- One observable event of the raw-paste transfer: a chunk handed to
`write`, or a `0x01` window-grow signal consumed. -/
inductive RPEvent where
  | sent (chunk : List Nat)
  | grow
  deriving DecidableEq, Repr

/-- Terminal outcome of `_raw_paste_write`. -/
inductive RPOutcome where
  | completed
  | abruptEnd        -- ProtocolError "Abrupt end during raw paste" (0x04)
  | unexpectedRead   -- ProtocolError "Unexpected read during raw paste"
  | ackMissing       -- ProtocolError "Could not complete raw paste"
  | headerMissing    -- the initial-header assertion fails
  | fuelOut
  deriving DecidableEq, Repr

/-- The send loop of `_raw_paste_write` (lines 759-795): while data remains,
first drain flow-control bytes whenever the window is exhausted or input is
pending (`window_remain == 0 or not incoming_is_empty()`), growing the
window by `windowSize` on `0x01` and aborting on `0x04` or anything else;
then send a chunk no larger than the remaining window.  After the data,
send EOT and wait for the device's closing EOT.  Returns the outcome and
the chronological event trace. -/
def rawPasteLoop (cmd : List Nat) (windowSize : Nat) :
    Nat → Conn → Nat → Nat → RPOutcome × List RPEvent
  | 0, _, _, _ => (.fuelOut, [])
  | fuel + 1, conn, i, windowRemain =>
    if i < cmd.length then
      if windowRemain = 0 ∨ ¬ conn.incomingIsEmpty then
        match softReadLong 1 conn with
        | (d, conn') =>
          if d = [1] then
            match rawPasteLoop cmd windowSize fuel conn' i (windowRemain + windowSize) with
            | (o, tr) => (o, .grow :: tr)
          else if d = [4] then (.abruptEnd, [])
          else (.unexpectedRead, [])
      else
        match (cmd.drop i).take windowRemain with
        | chunk =>
          match rawPasteLoop cmd windowSize fuel conn (i + chunk.length)
              (windowRemain - chunk.length) with
          | (o, tr) => (o, .sent chunk :: tr)
    else
      match softReadUntilLong [4] conn with
      | (data, _) => if data.getLast? = some 4 then (.completed, []) else (.ackMissing, [])

/-- `_raw_paste_write` top level: read the 2-byte little-endian window-size
header (`window_size = data[0] | data[1] << 8`), initialize the window and
run the send loop. -/
def raw_paste_write (cmd : List Nat) (fuel : Nat) (conn : Conn) : RPOutcome × List RPEvent :=
  match softReadLong 2 conn with
  | (hdr, conn') =>
    match hdr with
    | [b0, b1] =>
      rawPasteLoop cmd (b0 ||| (b1 <<< 8)) fuel conn' 0 (b0 ||| (b1 <<< 8))
    | _ => (.headerMissing, [])

/-- Bytes sent in a trace. -/
def rpSentSum (tr : List RPEvent) : Nat :=
  (tr.map fun e => match e with | .sent c => c.length | .grow => 0).sum

/-- `0x01` continuation signals consumed in a trace. -/
def rpGrows (tr : List RPEvent) : Nat :=
  (tr.map fun e => match e with | .sent _ => 0 | .grow => 1).sum

/-- The chunks of a trace, in order. -/
def rpChunks (tr : List RPEvent) : List (List Nat) :=
  tr.filterMap fun e => match e with | .sent c => some c | .grow => none

/-! ## C3: raw-paste refusal handling
(`_submit_code` target.py lines 613-637,
`_submit_code_via_raw_paste_mode` lines 706-745)

`_submit_mode` is assigned once, in the constructor (line 306), and never
reassigned; on `RawPasteNotSupportedError` the `_submit_code` handler prints
two messages to stderr and calls `exit(1)`.  `set_text_mode` toggling has no
observable effect in this embedding. -/

/-- The three submission modes (target.py lines 32-34). -/
inductive SubmitMode where
  | paste
  | rawPaste
  | raw
  deriving DecidableEq, Repr

/-- `_ensure_raw_mode`'s early return (lines 571-578): the session is
already at a raw prompt. -/
def atRawPrompt (lastPrompt : List Nat) : Bool :=
  lastPrompt = RAW_PROMPT ∨ lastPrompt = EOT ++ RAW_PROMPT
    ∨ lastPrompt = FIRST_RAW_PROMPT ∨ lastPrompt = W600_FIRST_RAW_PROMPT

/-- Outcome of one raw-paste submission attempt. -/
inductive RawPasteAttemptResult where
  | transferred (r : RPOutcome)  -- confirmation received, `_raw_paste_write` ran
  | notSupported                 -- `RawPasteNotSupportedError`
  | protocolError                -- "Could not get raw-paste confirmation"
  | needsModeSwitch              -- not at a raw prompt: `_ensure_raw_mode` would negotiate first
  deriving DecidableEq, Repr

/-- One iteration of the `for i in range(2)` loop of
`_submit_code_via_raw_paste_mode` (lines 715-742): send the 3-byte command,
read the 2-byte response; confirmation runs the flow-controlled transfer,
refusal raises the typed error immediately, and an unrecognized response is
extended by reading up to the first-raw-prompt banner — if the banner is
found the attempt may be retried (`.inr` carries the connection). -/
def rawPasteAttemptOnce (script : List Nat) (fuel : Nat) (conn : Conn) :
    RawPasteAttemptResult ⊕ Conn :=
  match softReadLong 2 conn with
  | (resp, c1) =>
    if resp = RAW_PASTE_CONFIRMATION then
      .inl (.transferred (raw_paste_write script fuel c1).1)
    else if resp = RAW_PASTE_REFUSAL then .inl .notSupported
    else
      match softReadUntilLong FIRST_RAW_PROMPT c1 with
      | (more, c2) =>
        if FIRST_RAW_PROMPT.isSuffixOf (resp ++ more) then .inr c2
        else .inl .protocolError

/-- `_submit_code_via_raw_paste_mode`: at most one retry; a first-raw-prompt
detection on the second attempt raises `RawPasteNotSupportedError`. -/
def submit_code_via_raw_paste_mode (script : List Nat) (fuel : Nat)
    (lastPrompt : List Nat) (conn : Conn) : RawPasteAttemptResult :=
  if ¬ atRawPrompt lastPrompt then .needsModeSwitch
  else
    match rawPasteAttemptOnce script fuel conn with
    | .inl r => r
    | .inr c2 =>
      match rawPasteAttemptOnce script fuel c2 with
      | .inl r => r
      | .inr _ => .notSupported

/-- What `_submit_code` does, observably. -/
inductive SubmitOutcome where
  | submittedPaste
  | submittedRaw
  | submittedRawPaste
  | exitedProcess (code : Nat)
  | protocolError
  | needsModeSwitch
  deriving DecidableEq, Repr

/-- `_submit_code` (lines 613-637): dispatch on the configured submit mode;
the raw-paste branch catches `RawPasteNotSupportedError`, prints an error
message and terminates the process with `exit(1)` — it does NOT fall back
to raw mode. -/
def submit_code (mode : SubmitMode) (script : List Nat) (fuel : Nat)
    (lastPrompt : List Nat) (conn : Conn) : SubmitOutcome :=
  match mode with
  | .paste => .submittedPaste
  | .raw => .submittedRaw
  | .rawPaste =>
    match submit_code_via_raw_paste_mode script fuel lastPrompt conn with
    | .transferred .completed => .submittedRawPaste
    | .transferred _ => .protocolError
    | .notSupported => .exitedProcess 1
    | .protocolError => .protocolError
    | .needsModeSwitch => .needsModeSwitch

/-! ## C1/C6: the prompt/output scanner
(`_process_output_until_active_prompt`, target.py lines 827-1094, called
with the default `interrupt_times = poke_after = advice_delay = None` as
`_execute` does via `_execute_with_consumer` (line 821); with those
defaults the timed side-effect arms (advice, poke, interrupts) never fire,
`_check_for_side_commands` is a no-op (io_handling.py line 17) and the base
`_output_warrants_interrupt` returns False (line 824), so one loop
iteration is: read up to a closer, optionally split at an embedded EOT,
detect a prompt suffix with a one-byte lookahead, otherwise handle LF /
prompt-prefix overlaps, forwarding chunks to the consumer.  The consumer is
modelled at byte level: the source decodes each chunk with
UTF-8-replacement before forwarding (`_decode`, line 1836). -/

inductive StreamName where
  | stdout
  | stderr
  deriving DecidableEq, Repr

inductive PromptKind where
  | eotRaw
  | normal
  | firstRaw
  | w600
  deriving DecidableEq, Repr

def promptBytes : PromptKind → List Nat
  | .eotRaw => EOT ++ RAW_PROMPT
  | .normal => NORMAL_PROMPT
  | .firstRaw => FIRST_RAW_PROMPT
  | .w600 => W600_FIRST_RAW_PROMPT

/-- `prompts` (line 919): in this order. -/
def PROMPTS : List PromptKind := [.eotRaw, .normal, .firstRaw, .w600]

/-- The closer alternation (lines 911-917), in regex-alternative order. -/
def CLOSERS : List (List Nat) :=
  [NORMAL_PROMPT, LF, EOT ++ RAW_PROMPT, FIRST_RAW_PROMPT, W600_FIRST_RAW_PROMPT]

/-- End position of the leftmost closer match (earliest start position;
alternation order breaks ties). -/
def findClosersEndAux : List Nat → Nat → Option Nat
  | [], _ => none
  | d :: rest, k =>
    match CLOSERS.find? (fun c => c.isPrefixOf (d :: rest)) with
    | some c => some (k + c.length)
    | none => findClosersEndAux rest (k + 1)

def findClosersEnd (data : List Nat) : Option Nat :=
  findClosersEndAux data 0

/-- `soft_read_until(closer-regex, timeout=0.05)` (line 976): a short poll —
return up to the first closer in the available data, or whatever is
available, or time out empty while the next burst arrives. -/
def softReadUntilShort (conn : Conn) : List Nat × Conn :=
  match findClosersEnd conn.avail with
  | some e => (conn.avail.take e, ⟨conn.avail.drop e, conn.future⟩)
  | none =>
    match conn.avail, conn.future with
    | [], [] => ([], ⟨[], []⟩)
    | [], b :: fs => ([], ⟨b, fs⟩)
    | a :: av, fs => (a :: av, ⟨[], fs⟩)

/-- Scanner state: the transient pending buffer, the active stream name,
the consumer calls so far (chunk bytes, stream), the OSC sequences
forwarded separately, and the last observed prompt. -/
structure ScanState where
  conn : Conn
  pending : List Nat
  stream : StreamName
  events : List (List Nat × StreamName)
  oscEvents : List (List Nat)
  lastPrompt : Option PromptKind
  deriving DecidableEq, Repr

/-- Lines 985-1001: an embedded EOT not followed by the raw prompt, seen
while on stdout, starts the stderr segment: flush the pending bytes plus
the part before the EOT as stdout, continue after the EOT on stderr.
Otherwise, in paste mode a traceback marker switches the stream. -/
def eotSplit (mode : SubmitMode) (stream : StreamName) (pending : List Nat)
    (events : List (List Nat × StreamName)) (newData0 : List Nat) :
    List Nat × List Nat × List (List Nat × StreamName) × StreamName :=
  match bytesIndexOfAux [4] newData0 0 with
  | some p =>
    if ((newData0.drop p).take 2 ≠ EOT ++ RAW_PROMPT) ∧ stream = .stdout then
      (newData0.drop (p + 1), [], events ++ [(pending ++ newData0.take p, stream)], .stderr)
    else if mode = .paste ∧ decide (TRACEBACK_MARKER <:+: newData0) then
      (newData0, pending, events, .stderr)
    else (newData0, pending, events, stream)
  | none =>
    if mode = .paste ∧ decide (TRACEBACK_MARKER <:+: newData0) then
      (newData0, pending, events, .stderr)
    else (newData0, pending, events, stream)

/-- The single-pass trailing-prompt strip (lines 1043-1048: the `for` has no
`break`, so its `else` always fires after one pass over the prompt list). -/
def stripPromptsOnce (l : List Nat) : List Nat :=
  PROMPTS.foldl
    (fun acc p =>
      if (promptBytes p).isSuffixOf acc then acc.take (acc.length - (promptBytes p).length)
      else acc)
    l

/-- Active-prompt return (lines 1040-1052). -/
def promptActive (p : PromptKind) (s : ScanState) (pending1 : List Nat) :
    ScanState ⊕ (PromptKind × ScanState) :=
  .inr (p,
    { s with
        pending := [],
        events := s.events ++ [(stripPromptsOnce pending1, s.stream)],
        lastPrompt := some p })

/-- The one-byte lookahead after a candidate prompt (lines 1015-1052): an
ESC starts an OSC sequence read to ST and forwarded separately (then the
follow-up is treated as empty); any other follow-up byte marks the prompt
inactive and is pushed back via `unread`; no follow-up means the prompt is
active. -/
def promptFollowUp (p : PromptKind) (s : ScanState) (pending1 : List Nat) :
    ScanState ⊕ (PromptKind × ScanState) :=
  match softRead1Short s.conn with
  | (fu, c2) =>
    if fu = ESC then
      match softReadUntilLong ST c2 with
      | (fu2, c3) =>
        promptActive p
          { s with
              conn := c3,
              oscEvents := if ST.isSuffixOf (ESC ++ fu2) then s.oscEvents ++ [ESC ++ fu2]
                           else s.oscEvents }
          pending1
    else if fu ≠ [] then
      .inl { s with conn := c2.unread fu, pending := pending1 }
    else
      promptActive p { s with conn := c2 } pending1

/-- The prompt-prefix overlap `for` loop (lines 1067-1087): for each prompt
whose prefix overlaps the tail of `pending`, wait briefly for one byte; on
silence flush `pending` as ordinary output, otherwise push the overlapping
tail plus the byte back and truncate `pending`.  Both paths `continue` the
`for`, and its `else` (no `break` exists) flushes afterwards. -/
def overlapScan : List PromptKind → List Nat → Conn → List (List Nat × StreamName) →
    StreamName → List Nat × Conn × List (List Nat × StreamName)
  | [], pending, conn, events, _ => (pending, conn, events)
  | p :: ps, pending, conn, events, stream =>
    if ends_overlap pending (promptBytes p) ≠ 0 then
      match softReadLong 1 conn with
      | ([], c2) => overlapScan ps [] c2 (events ++ [(pending, stream)]) stream
      | (fu, c2) =>
        overlapScan ps
          (pending.take (pending.length - ends_overlap pending (promptBytes p)))
          (c2.unread (pending.drop (pending.length - ends_overlap pending (promptBytes p)) ++ fu))
          events stream
    else overlapScan ps pending conn events stream

/-- Lines 1054-1094: the LF handling (a possible penultimate byte of a
first raw prompt is pushed back whole; otherwise whole lines are flushed)
and the overlap scan with its final flush. -/
def noPromptStep (s : ScanState) (pending1 : List Nat) :
    ScanState ⊕ (PromptKind × ScanState) :=
  if LF.isSuffixOf pending1 then
    if FIRST_RAW_PROMPT.dropLast.isSuffixOf pending1
        ∨ W600_FIRST_RAW_PROMPT.dropLast.isSuffixOf pending1 then
      match softReadLong 1 s.conn with
      | (x, c2) => .inl { s with conn := c2.unread (pending1 ++ x), pending := [] }
    else
      .inl { s with pending := [], events := s.events ++ [(pending1, s.stream)] }
  else
    match overlapScan PROMPTS pending1 s.conn s.events s.stream with
    | (pfin, cfin, efin) =>
      .inl { s with conn := cfin, pending := [], events := efin ++ [(pfin, s.stream)] }

/-- One iteration of the scanning `while` loop. -/
def scanIter (mode : SubmitMode) (s : ScanState) : ScanState ⊕ (PromptKind × ScanState) :=
  match softReadUntilShort s.conn with
  | (newData0, c1) =>
    match eotSplit mode s.stream s.pending s.events newData0 with
    | (newData, pending0, events0, stream0) =>
      if newData = [] ∧ pending0 = [] then
        .inl { s with conn := c1, pending := [], stream := stream0, events := events0 }
      else
        match PROMPTS.find? (fun p => (promptBytes p).isSuffixOf (pending0 ++ newData)) with
        | some p =>
          promptFollowUp p { s with conn := c1, stream := stream0, events := events0 }
            (pending0 ++ newData)
        | none =>
          noPromptStep { s with conn := c1, stream := stream0, events := events0 }
            (pending0 ++ newData)

/-- `_process_output_until_active_prompt`, fuelled. -/
def scanLoop (mode : SubmitMode) : Nat → ScanState → Option (PromptKind × ScanState)
  | 0, _ => none
  | fuel + 1, s =>
    match scanIter mode s with
    | .inl s2 => scanLoop mode fuel s2
    | .inr r => some r

def initScan (conn : Conn) : ScanState :=
  ⟨conn, [], .stdout, [], [], none⟩

/-- `_execute(script, capture_output=True)` joins the per-stream chunks
(lines 1354-1363). -/
def captureStream (events : List (List Nat × StreamName)) (sn : StreamName) : List Nat :=
  ((events.filter fun e => decide (e.2 = sn)).map Prod.fst).flatten

/-- Captured stdout/stderr and the terminating prompt of one execution's
output-scanning phase. -/
def execute_capture (mode : SubmitMode) (fuel : Nat) (conn : Conn) :
    Option (List Nat × List Nat × PromptKind) :=
  match scanLoop mode fuel (initScan conn) with
  | none => none
  | some (p, s) => some (captureStream s.events .stdout, captureStream s.events .stderr, p)

/-- Bytes that play no protocol role: not EOT, LF, CR-prompt heads, `>`,
`r` (the first-raw-prompt head) or ESC. -/
def benignByte (b : Nat) : Prop :=
  b ≠ 4 ∧ b ≠ 10 ∧ b ≠ 62 ∧ b ≠ 114 ∧ b ≠ 27

instance (b : Nat) : Decidable (benignByte b) := by
  unfold benignByte
  infer_instance

end Minny

namespace Minny

/-! ### C10 theorems -/

lemma endsOverlapFrom_le (left right : List Nat) (i : Nat) :
    endsOverlapFrom left right i ≤ i := by
  induction i with
  | zero => simp [endsOverlapFrom]
  | succ n ih =>
    simp only [endsOverlapFrom]
    split
    · exact le_refl _
    · exact ih.trans (Nat.le_succ n)

lemma endsOverlapFrom_suffix (left right : List Nat) (i : Nat)
    (h : 0 < endsOverlapFrom left right i) :
    (right.take (endsOverlapFrom left right i)).isSuffixOf left := by
  induction i with
  | zero => simp [endsOverlapFrom] at h
  | succ n ih =>
    simp only [endsOverlapFrom] at h ⊢
    split
    · next hs => simpa using hs
    · next hs =>
      simp only [if_neg hs] at h
      exact ih h

lemma endsOverlapFrom_maximal (left right : List Nat) (i j : Nat)
    (hj : j ≤ i) (hsuf : (right.take j).isSuffixOf left) :
    j ≤ endsOverlapFrom left right i := by
  induction i with
  | zero => omega
  | succ n ih =>
    simp only [endsOverlapFrom]
    split
    · omega
    · next hs =>
      rcases Nat.lt_or_ge j (n + 1) with hlt | hge
      · exact ih (by omega)
      · exfalso
        have : j = n + 1 := by omega
        subst this
        exact hs hsuf

/-- C10: `ends_overlap(left, right)` returns the largest `i` with
`0 ≤ i ≤ min |left| |right|` such that `left` ends with `right.take i`
(`0` when no positive-length suffix of `left` is a prefix of `right`);
in particular the result never exceeds the length of either argument. -/
theorem C10_ends_overlap_correct (left right : List Nat) :
    ends_overlap left right ≤ left.length
    ∧ ends_overlap left right ≤ right.length
    ∧ (right.take (ends_overlap left right)).isSuffixOf left
    ∧ (∀ j, j ≤ min left.length right.length →
        (right.take j).isSuffixOf left → j ≤ ends_overlap left right) := by
  refine ⟨?_, ?_, ?_, ?_⟩
  · exact (endsOverlapFrom_le _ _ _).trans (Nat.min_le_left _ _)
  · exact (endsOverlapFrom_le _ _ _).trans (Nat.min_le_right _ _)
  · rcases Nat.eq_zero_or_pos (ends_overlap left right) with h | h
    · rw [h]
      simp [List.isSuffixOf]
    · exact endsOverlapFrom_suffix _ _ _ h
  · intro j hj hsuf
    exact endsOverlapFrom_maximal _ _ _ _ hj hsuf

/-- Witness for C10 at a concrete input. -/
theorem C10_ends_overlap_witness :
    (List.take (ends_overlap [1, 2, 3] [3, 4]) [3, 4]).isSuffixOf [1, 2, 3]
    ∧ ends_overlap [1, 2, 3] [3, 4] ≤ 2 := by
  refine ⟨(C10_ends_overlap_correct [1, 2, 3] [3, 4]).2.2.1, ?_⟩
  have h := (C10_ends_overlap_correct [1, 2, 3] [3, 4]).2.1
  simpa using h

/-! ### C9 theorems -/

/-- "binascii" or "ubinascii" is among the device's builtin modules. -/
def hasBinarySafeModule (builtinModules : List (List Nat)) : Prop :=
  [98, 105, 110, 97, 115, 99, 105, 105] ∈ builtinModules
  ∨ [117, 98, 105, 110, 97, 115, 99, 105, 105] ∈ builtinModules

/-- The lower-cased path ends in `.py`, `.txt` or `.csv`. -/
def hasTextExtension (path : List Nat) : Prop :=
  ∃ ext ∈ TEXT_EXTENSIONS, ext <:+ path.map asciiLower

/-- C9 counterexample: the claim says hex-encoding happens exactly when the
binary-safe module is *absent* ("detected via a missing binary-safe module").
For a device with no builtin modules and the non-text path "data.bin", the
claim's condition holds yet `_should_hexlify` returns `False` (hexlifying is
impossible without `binascii` on the device). -/
theorem C9_should_hexlify_counterexample :
    claimC9_hexCondition [] [100, 97, 116, 97, 46, 98, 105, 110] = true
    ∧ should_hexlify [] [100, 97, 116, 97, 46, 98, 105, 110] = false := by
  decide

/-- C9 amended: data is hex-encoded exactly when a binary-safe module
(`binascii` or `ubinascii`) is PRESENT among the device's builtin modules and
the path does not end (case-insensitively) in `.py`, `.txt` or `.csv`;
text-extension paths are always transferred without hex encoding. -/
theorem C9_should_hexlify_amended (builtinModules : List (List Nat)) (path : List Nat) :
    should_hexlify builtinModules path = true
      ↔ (hasBinarySafeModule builtinModules ∧ ¬ hasTextExtension path) := by
  have hmodIff : ((builtinModules.contains [98, 105, 110, 97, 115, 99, 105, 105]
        ∨ builtinModules.contains [117, 98, 105, 110, 97, 115, 99, 105, 105]) : Prop)
      ↔ hasBinarySafeModule builtinModules :=
    or_congr List.elem_iff List.elem_iff
  have hextIff : (TEXT_EXTENSIONS.any (fun ext => ext.isSuffixOf (path.map asciiLower)) = true)
      ↔ hasTextExtension path := by
    unfold hasTextExtension
    rw [List.any_eq_true]
    exact exists_congr fun ext => and_congr_right fun _ => List.isSuffixOf_iff_suffix
  unfold should_hexlify
  by_cases h1 : ((builtinModules.contains [98, 105, 110, 97, 115, 99, 105, 105]
      ∨ builtinModules.contains [117, 98, 105, 110, 97, 115, 99, 105, 105]) : Prop)
  · rw [if_neg (not_not_intro h1)]
    by_cases h2 : TEXT_EXTENSIONS.any (fun ext => ext.isSuffixOf (path.map asciiLower)) = true
    · rw [if_pos h2]
      simp only [Bool.false_eq_true, false_iff, not_and, not_not]
      intro _
      exact hextIff.mp h2
    · rw [if_neg h2]
      simp only [true_iff]
      exact ⟨hmodIff.mp h1, fun hc => h2 (hextIff.mpr hc)⟩
  · rw [if_pos h1]
    simp only [Bool.false_eq_true, false_iff, not_and]
    intro hb _
    exact h1 (hmodIff.mpr hb)

/-- Witness for C9 amended at a concrete input: with `binascii` among the
builtins and a `.bin` path, hexlifying is enabled. -/
theorem C9_should_hexlify_amended_witness :
    should_hexlify [[98, 105, 110, 97, 115, 99, 105, 105]]
      [100, 97, 116, 97, 46, 98, 105, 110] = true := by
  refine (C9_should_hexlify_amended _ _).mpr ⟨Or.inl ?_, ?_⟩
  · simp
  · rintro ⟨ext, hmem, hsuf⟩
    have hlow : ([100, 97, 116, 97, 46, 98, 105, 110] : List Nat).map asciiLower
        = [100, 97, 116, 97, 46, 98, 105, 110] := by decide
    rw [hlow] at hsuf
    fin_cases hmem <;> exact absurd hsuf (by decide)

/-! ### C8 theorems -/

lemma pasteShrinkRev_append (wbs : Nat) (rb s : List Nat) :
    (pasteShrinkRev wbs rb s).1 ++ (pasteShrinkRev wbs rb s).2 = rb.reverse ++ s := by
  induction rb generalizing s with
  | nil => simp [pasteShrinkRev]
  | cons b rb ih =>
    simp only [pasteShrinkRev]
    split
    · rw [ih (b :: s)]
      simp
    · simp

lemma pasteShrinkRev_post (wbs : Nat) (rb s : List Nat) :
    (pasteShrinkRev wbs rb s).1 = []
    ∨ ((pasteExpectedEcho (pasteShrinkRev wbs rb s).1).length ≤ wbs
        ∧ (pasteShrinkRev wbs rb s).1.getLast? ≠ some 13
        ∧ ¬((pasteShrinkRev wbs rb s).1.length > 2
            ∧ starts_with_continuation_byte (pasteShrinkRev wbs rb s).2)) := by
  induction rb generalizing s with
  | nil => left; simp [pasteShrinkRev]
  | cons b rb ih =>
    simp only [pasteShrinkRev]
    split
    · exact ih (b :: s)
    · next hc =>
      right
      push_neg at hc
      obtain ⟨h1, h2, h3⟩ := hc
      refine ⟨h1, ?_, ?_⟩
      · show ((b :: rb).reverse).getLast? ≠ some 13
        rw [List.getLast?_reverse]
        simp only [List.head?_cons, ne_eq, Option.some.injEq]
        exact h2
      · show ¬((b :: rb).reverse.length > 2 ∧ starts_with_continuation_byte s)
        rintro ⟨hlen, hcont⟩
        rw [List.length_reverse] at hlen
        exact absurd hcont (by simpa using h3 hlen)

/-- C8 counterexample: the claim says the first byte remaining after each
transmitted block is never a UTF-8 continuation byte.  With write block size 3
and the script "a😀" (UTF-8 bytes 61 F0 9F 98 80), the shrinking loop stops at
the 2-byte block [61, F0] (the `len(block) > 2` guard), splitting the 4-byte
character: the remaining bytes start with continuation byte 0x9F. -/
theorem C8_paste_counterexample :
    pasteBlocks 3 5 [0x61, 0xF0, 0x9F, 0x98, 0x80]
      = some [[0x61, 0xF0], [0x9F, 0x98, 0x80]]
    ∧ starts_with_continuation_byte [0x9F, 0x98, 0x80] = true := by
  constructor
  · rfl
  · decide

/-- C8 amended: for every script whose paste-mode transmission completes,
no transmitted block ends with a carriage-return byte, the concatenation of
all transmitted blocks equals the full script bytes, and for every
transmitted block LONGER THAN 2 BYTES (the boundary-shrinking loop's
`len(block) > 2` guard) the first remaining byte is not a UTF-8 continuation
byte. -/
theorem C8_paste_blocks_invariants (wbs fuel : Nat) (script : List Nat)
    (blocks : List (List Nat)) (h : pasteBlocks wbs fuel script = some blocks) :
    blocks.flatten = script
    ∧ (∀ b ∈ blocks, b.getLast? ≠ some 13)
    ∧ (∀ i (hi : i < blocks.length), 2 < (blocks.get ⟨i, hi⟩).length →
        starts_with_continuation_byte ((blocks.drop (i + 1)).flatten) = false) := by
  induction fuel generalizing script blocks with
  | zero =>
    simp only [pasteBlocks] at h
    split at h
    · next hs =>
      simp only [Option.some.injEq] at h
      subst hs
      subst h
      exact ⟨rfl, by simp, by simp⟩
    · exact absurd h (by simp)
  | succ n ih =>
    simp only [pasteBlocks, pasteShrinkBlock] at h
    split at h
    · next hs =>
      simp only [Option.some.injEq] at h
      subst hs
      subst h
      exact ⟨rfl, by simp, by simp⟩
    · next hs =>
      rcases hm : pasteBlocks wbs n (pasteShrinkRev wbs (script.take wbs).reverse
          (script.drop wbs)).2 with _ | bs
      · rw [hm] at h
        exact absurd h (by simp)
      · rw [hm] at h
        simp only [Option.some.injEq] at h
        obtain ⟨hjoin, hlast, hcont⟩ := ih _ _ hm
        have happ := pasteShrinkRev_append wbs (script.take wbs).reverse (script.drop wbs)
        rw [List.reverse_reverse, List.take_append_drop] at happ
        have hpost := pasteShrinkRev_post wbs (script.take wbs).reverse (script.drop wbs)
        subst h
        refine ⟨?_, ?_, ?_⟩
        · simp only [List.flatten_cons]
          rw [hjoin]
          exact happ
        · intro b hb
          rcases hb with _ | hb
          · rcases hpost with hemp | ⟨_, hlast13, _⟩
            · rw [hemp]
              simp
            · exact hlast13
          · next hb => exact hlast b hb
        · intro i hi hlen
          match i with
          | 0 =>
            simp only [List.drop_succ_cons, List.drop_zero]
            rw [hjoin]
            rcases hpost with hemp | ⟨_, _, hno⟩
            · simp only [List.get] at hlen
              rw [hemp] at hlen
              simp at hlen
            · simp only [List.get] at hlen
              rcases hcb : starts_with_continuation_byte
                  (pasteShrinkRev wbs (script.take wbs).reverse (script.drop wbs)).2 with _ | _
              · rfl
              · exact absurd ⟨hlen, hcb⟩ hno
          | (j+1) =>
            simp only [List.length_cons] at hi
            have := hcont j (by omega)
            simp only [List.get] at this ⊢
            simpa using this (by simpa using hlen)

/-- Witness for C8 amended at a concrete input. -/
theorem C8_paste_blocks_invariants_witness :
    ([[97]] : List (List Nat)).flatten = [97]
    ∧ (∀ b ∈ ([[97]] : List (List Nat)), b.getLast? ≠ some 13) :=
  ⟨(C8_paste_blocks_invariants 255 3 [97] [[97]] (by rfl)).1,
   (C8_paste_blocks_invariants 255 3 [97] [[97]] (by rfl)).2.1⟩

/-! ### C5 theorems -/

/-- C5 counterexample: on a target without directory support (micro:bit),
`delete_recursively` always deletes through the REPL, even after the
read-only flag has been latched by an earlier operation — contradicting
"every subsequent write or delete operation ... routes through the
mounted-volume fallback without ever attempting the REPL substrate again". -/
theorem C5_latch_counterexample :
    (fsOpStep { connectedOverWebrepl := false, supportsDirectories := false } true
        (.deleteRec none)).attempts = [Substrate.repl] := by
  rfl

lemma fsOpStep_latched (cfg : BareMetalConfig)
    (hw : cfg.connectedOverWebrepl = false) (hd : cfg.supportsDirectories = true)
    (op : FsOp) :
    (fsOpStep cfg true op).readOnly = true
    ∧ Substrate.repl ∉ (fsOpStep cfg true op).attempts
    ∧ Substrate.mount ∈ (fsOpStep cfg true op).attempts := by
  cases op <;>
    simp [fsOpStep, write_file_ex, remove_file_if_exists, remove_dir_if_empty,
      delete_recursively, hw, hd]

/-- C5 amended: for a session not connected over WebREPL and whose target
supports directories: (1) the read-only flag is latched exactly by the
condition each handler catches — a `ReadOnlyFilesystemError` on a write, a
propagating `ManagementError` with read-only-matching text on a delete
operation; (2)-(3) a remove whose REPL attempt raises an errno-formatted
`OSError` re-raises it without latching and without mount fallback, (4) in
particular for the device error line "OSError: [Errno 30] Read-only
filesystem", whose text matches the read-only patterns; and (5) once the
flag is latched every subsequent `write_file_ex`, `remove_file_if_exists`,
`remove_dir_if_empty` and `delete_recursively` routes through the
mounted-volume fallback and never attempts the REPL filesystem substrate
again (`delete_recursively`'s trailing `_sync_remote_filesystem()`
management command still runs over the REPL).  On directory-less
(micro:bit) targets `delete_recursively` keeps using the REPL regardless
of the flag. -/
theorem C5_read_only_latch (cfg : BareMetalConfig)
    (hw : cfg.connectedOverWebrepl = false) (hd : cfg.supportsDirectories = true) :
    (∀ ro op, observesReadOnly op → (fsOpStep cfg ro op).readOnly = true)
    ∧ (∀ out err n, remove_file_if_exists_via_repl out err = .raisedOs n →
        remove_file_if_exists false out err =
          { readOnly := false, attempts := [.repl], raised := true })
    ∧ (∀ out err n, remove_dir_if_empty_via_repl out err = .raisedOs n →
        remove_dir_if_empty false out err =
          { readOnly := false, attempts := [.repl], raised := true })
    ∧ (remove_file_if_exists_via_repl [] ROFS_OSERROR_LINE = .raisedOs 30
        ∧ contains_read_only_error ROFS_OSERROR_LINE = true
        ∧ remove_file_if_exists false [] ROFS_OSERROR_LINE =
            { readOnly := false, attempts := [.repl], raised := true })
    ∧ (∀ ops tr, tr ∈ (runFsOps cfg true ops).2 →
        Substrate.repl ∉ tr ∧ Substrate.mount ∈ tr) := by
  refine ⟨?_, ?_, ?_, ⟨rfl, rfl, rfl⟩, ?_⟩
  · intro ro op hobs
    cases op with
    | writeFile openOutput =>
      cases ro with
      | true => simp [fsOpStep, write_file_ex, hw]
      | false =>
        simp only [observesReadOnly] at hobs
        simp [fsOpStep, write_file_ex, hw, hobs]
    | removeFile out err =>
      obtain ⟨t, hrepl, ht⟩ := hobs
      cases ro with
      | true => simp [fsOpStep, remove_file_if_exists]
      | false => simp [fsOpStep, remove_file_if_exists, hrepl, ht]
    | removeDir out err =>
      obtain ⟨t, hrepl, ht⟩ := hobs
      cases ro with
      | true => simp [fsOpStep, remove_dir_if_empty]
      | false => simp [fsOpStep, remove_dir_if_empty, hrepl, ht]
    | deleteRec outcome =>
      obtain ⟨t, rfl, ht⟩ := hobs
      cases ro with
      | true => simp [fsOpStep, delete_recursively, hd]
      | false => simp [fsOpStep, delete_recursively, hd, ht]
  · intro out err n h
    simp [remove_file_if_exists, h]
  · intro out err n h
    simp [remove_dir_if_empty, h]
  · intro ops
    induction ops with
    | nil => intro tr htr; simp [runFsOps] at htr
    | cons op ops ih =>
      intro tr htr
      obtain ⟨hro, hrepl, hmount⟩ := fsOpStep_latched cfg hw hd op
      simp only [runFsOps, hro] at htr
      rcases List.mem_cons.mp htr with h | h
      · subst h
        exact ⟨hrepl, hmount⟩
      · exact ih tr h

/-- Witness for C5 amended at concrete inputs: a session with the flag
latched removes a file through the mount only. -/
theorem C5_read_only_latch_witness :
    Substrate.repl ∉ [Substrate.mount] ∧ Substrate.mount ∈ [Substrate.mount] :=
  (C5_read_only_latch ⟨false, true⟩ rfl rfl).2.2.2.2 [.removeFile [] []] [Substrate.mount]
    (by simp [runFsOps, fsOpStep, remove_file_if_exists])

/-! ### C2 theorems -/

lemma hexVal_hexChar (n : Nat) (h : n < 16) : hexDigitVal (hexDigitChar n) = n := by
  interval_cases n <;> rfl

lemma unhexlify_hexlify (l : List Nat) (h : ∀ b ∈ l, b < 256) :
    unhexlify (hexlify l) = l := by
  induction l with
  | nil => rfl
  | cons b rest ih =>
    have hb : b < 256 := h b (List.mem_cons_self _ _)
    have h1 : b / 16 < 16 := Nat.div_lt_of_lt_mul (by omega)
    have h2 : b % 16 < 16 := Nat.mod_lt _ (by omega)
    simp only [hexlify, unhexlify]
    rw [hexVal_hexChar _ h1, hexVal_hexChar _ h2, ih fun x hx => h x (List.mem_cons_of_mem _ hx)]
    congr 1
    omega

lemma blockOnDevice_valid (hexMode : Bool) (block : List Nat)
    (h : ∀ b ∈ block, b < 256) : blockOnDevice hexMode block = block := by
  cases hexMode with
  | false => rfl
  | true => simp [blockOnDevice, unhexlify_hexlify block h]

lemma writeLoopRepl_spec (hexMode : Bool) (bs : Nat) (hbs : 0 < bs) :
    ∀ fuel (src file : List Nat) (counter sent : Nat), src.length < fuel →
      (∀ b ∈ src, b < 256) →
      writeLoopRepl hexMode bs fuel src file counter sent
        = some (file ++ src, counter + src.length, sent + src.length) := by
  intro fuel
  induction fuel with
  | zero => intro src _ _ _ hlen _; omega
  | succ n ih =>
    intro src file counter sent hlen hval
    simp only [writeLoopRepl]
    by_cases hsrc : src.take bs = []
    · have hnil : src = [] := by
        rcases List.take_eq_nil_iff.mp hsrc with h0 | h0
        · omega
        · exact h0
      subst hnil
      simp [hsrc, hbs]
    · rw [if_neg hsrc]
      have hdev : blockOnDevice hexMode (src.take bs) = src.take bs :=
        blockOnDevice_valid _ _ fun b hb => hval b (List.mem_of_mem_take hb)
      by_cases hlt : (src.take bs).length < bs
      · have hsl : src.length < bs := by
          rw [List.length_take] at hlt
          omega
        have htake : src.take bs = src := List.take_of_length_le (by omega)
        rw [if_pos hlt, hdev, htake]
      · rw [if_neg hlt, hdev]
        have hbe : (src.take bs).length = bs := by
          rw [List.length_take] at hlt ⊢
          omega
        have hge : bs ≤ src.length := by
          rw [List.length_take] at hbe
          omega
        rw [ih (src.drop bs) (file ++ src.take bs) _ _
          (by rw [List.length_drop]; omega)
          (fun b hb => hval b (List.mem_of_mem_drop hb))]
        simp only [Option.some.injEq, Prod.mk.injEq]
        refine ⟨by rw [List.append_assoc, List.take_append_drop], ?_, ?_⟩ <;>
          rw [hbe, List.length_drop] <;> omega

lemma readLoopRepl_spec (hexMode : Bool) (bs : Nat) (hbs : 0 < bs) :
    ∀ fuel (remaining sink : List Nat) (nread : Nat), remaining.length < fuel →
      (∀ b ∈ remaining, b < 256) →
      readLoopRepl hexMode bs fuel remaining sink nread
        = some (sink ++ remaining, nread + remaining.length) := by
  intro fuel
  induction fuel with
  | zero => intro remaining _ _ hlen _; omega
  | succ n ih =>
    intro remaining sink nread hlen hval
    simp only [readLoopRepl]
    have hblk : (if hexMode then unhexlify (hexlify (remaining.take bs))
        else remaining.take bs) = remaining.take bs := by
      cases hexMode with
      | false => rfl
      | true =>
        simp only [if_pos]
        exact unhexlify_hexlify _ fun b hb => hval b (List.mem_of_mem_take hb)
    rw [hblk]
    by_cases hemp : remaining.take bs = []
    · have hnil : remaining = [] := by
        rcases List.take_eq_nil_iff.mp hemp with h0 | h0
        · omega
        · exact h0
      subst hnil
      simp [hemp, hbs]
    · simp only [if_neg hemp]
      by_cases hlt : (remaining.take bs).length < bs
      · have hsl : remaining.length < bs := by
          rw [List.length_take] at hlt
          omega
        have htake : remaining.take bs = remaining := List.take_of_length_le (by omega)
        rw [if_pos hlt, htake]
      · rw [if_neg hlt]
        have hbe : (remaining.take bs).length = bs := by
          rw [List.length_take] at hlt ⊢
          omega
        have hge : bs ≤ remaining.length := by
          rw [List.length_take] at hbe
          omega
        rw [ih (remaining.drop bs) (sink ++ remaining.take bs) _
          (by rw [List.length_drop]; omega)
          (fun b hb => hval b (List.mem_of_mem_drop hb))]
        simp only [Option.some.injEq, Prod.mk.injEq]
        refine ⟨by rw [List.append_assoc, List.take_append_drop], ?_⟩
        rw [hbe, List.length_drop]
        omega

/-- C2: for every byte sequence `content` of length `N` (any `N`, including
`0`, sub-block, exact-block and multi-block sizes relative to the block
size) and either hex mode, `_write_file_via_repl` over the scripted REPL
substrate succeeds (the device's `__thonny_written` total matches
`bytes_sent`, so no `OSError` is raised), returns `N`, leaves exactly
`content` as the device file, and a subsequent `_read_file_via_repl` of
that file returns exactly `content` with byte count `N`. -/
theorem C2_write_read_round_trip (hexMode : Bool) (bs : Nat) (hbs : 0 < bs)
    (content : List Nat) (hval : ∀ b ∈ content, b < 256) :
    write_file_via_repl hexMode bs (content.length + 1) content
      = some (content, content.length)
    ∧ read_file_via_repl hexMode bs (content.length + 1) content
      = some (content, content.length) := by
  constructor
  · unfold write_file_via_repl
    rw [writeLoopRepl_spec hexMode bs hbs _ content [] 0 0 (by omega) hval]
    simp
  · unfold read_file_via_repl
    rw [readLoopRepl_spec hexMode bs hbs _ content [] 0 (by omega) hval]
    simp

/-- Witness for C2 at a concrete input (hex mode, block size 2, three
bytes: a sub-block final chunk after one full block). -/
theorem C2_write_read_round_trip_witness :
    write_file_via_repl true 2 4 [0, 171, 255] = some ([0, 171, 255], 3)
    ∧ read_file_via_repl true 2 4 [0, 171, 255] = some ([0, 171, 255], 3) :=
  C2_write_read_round_trip true 2 (by decide) [0, 171, 255] (by decide)

/-! ### C7 theorems -/

lemma strIndexOfAux_of_prefix (pat B : List Char) (h : pat.isPrefixOf B = true) (i : Nat) :
    strIndexOfAux pat B i = some i := by
  cases B with
  | nil =>
    cases pat with
    | nil => rfl
    | cons p pt => simp [List.isPrefixOf] at h
  | cons c rest => simp [strIndexOfAux, h]

lemma isPrefixOf_cons_ne (p0 : Char) (pt : List Char) (c : Char) (rest : List Char)
    (h : p0 ≠ c) : (p0 :: pt).isPrefixOf (c :: rest) = false := by
  simp [List.isPrefixOf, h]

lemma strIndexOfAux_cons_skip (pat : List Char) (c : Char) (rest : List Char) (i : Nat)
    (h : pat.isPrefixOf (c :: rest) = false) :
    strIndexOfAux pat (c :: rest) i = strIndexOfAux pat rest (i + 1) := by
  simp [strIndexOfAux, h]

lemma end_marker_not_prefix_cons (c : Char) (rest : List Char) (hc : c ≠ '<') :
    MGMT_VALUE_END_S.isPrefixOf (c :: rest) = false := by
  show (('<' : Char) :: '/' :: 'm' :: 'i' :: 'n' :: 'n' :: 'y' :: '>' :: []).isPrefixOf
    (c :: rest) = false
  exact isPrefixOf_cons_ne _ _ _ _ (fun h => hc h.symm)

lemma strIndexOfAux_end_over_s (s suf : List Char) (hs : '<' ∉ s) :
    ∀ i, strIndexOfAux MGMT_VALUE_END_S (s ++ (MGMT_VALUE_END_S ++ suf)) i
      = some (i + s.length) := by
  induction s with
  | nil =>
    intro i
    simpa using strIndexOfAux_of_prefix _ _
      (List.isPrefixOf_iff_prefix.mpr (List.prefix_append _ _)) i
  | cons c s ih =>
    intro i
    have hc : c ≠ '<' := fun hh => hs (hh ▸ List.mem_cons_self _ _)
    rw [List.cons_append, strIndexOfAux_cons_skip _ _ _ _ (end_marker_not_prefix_cons c _ hc),
      ih (fun hm => hs (List.mem_cons_of_mem _ hm)) (i + 1)]
    congr 1
    simp only [List.length_cons]
    omega

lemma end_marker_not_prefix_start (rest : List Char) :
    MGMT_VALUE_END_S.isPrefixOf ('<' :: 'm' :: rest) = false := by
  rfl

lemma strIndexOfAux_end_over_start (rest : List Char) (i : Nat) :
    strIndexOfAux MGMT_VALUE_END_S (MGMT_VALUE_START_S ++ rest) i
      = strIndexOfAux MGMT_VALUE_END_S rest (i + 7) := by
  show strIndexOfAux MGMT_VALUE_END_S
    ('<' :: 'm' :: 'i' :: 'n' :: 'n' :: 'y' :: '>' :: rest) i = _
  rw [strIndexOfAux_cons_skip _ _ _ _ (end_marker_not_prefix_start _)]
  rw [strIndexOfAux_cons_skip _ _ _ _ (end_marker_not_prefix_cons _ _ (by decide))]
  rw [strIndexOfAux_cons_skip _ _ _ _ (end_marker_not_prefix_cons _ _ (by decide))]
  rw [strIndexOfAux_cons_skip _ _ _ _ (end_marker_not_prefix_cons _ _ (by decide))]
  rw [strIndexOfAux_cons_skip _ _ _ _ (end_marker_not_prefix_cons _ _ (by decide))]
  rw [strIndexOfAux_cons_skip _ _ _ _ (end_marker_not_prefix_cons _ _ (by decide))]
  rw [strIndexOfAux_cons_skip _ _ _ _ (end_marker_not_prefix_cons _ _ (by decide))]

lemma strIndexOfAux_skip_pre (pat : List Char) (hpat : pat.head? = some '<')
    (pre : List Char) (hpre : '<' ∉ pre) (B : List Char) :
    ∀ i, strIndexOfAux pat (pre ++ B) i = strIndexOfAux pat B (i + pre.length) := by
  induction pre with
  | nil => intro i; simp
  | cons d pre ih =>
    intro i
    have hd : ('<' : Char) ≠ d := fun hh => hpre (hh ▸ List.mem_cons_self _ _)
    obtain ⟨pt, rfl⟩ : ∃ pt, pat = '<' :: pt := by
      cases pat with
      | nil => simp at hpat
      | cons p pt =>
        simp only [List.head?_cons, Option.some.injEq] at hpat
        exact ⟨pt, by rw [hpat]⟩
    rw [List.cons_append, strIndexOfAux_cons_skip _ _ _ _ (isPrefixOf_cons_ne _ _ _ _ hd),
      ih (fun hm => hpre (List.mem_cons_of_mem _ hm)) (i + 1)]
    congr 1
    simp
    omega

lemma strIndexOf_start_marker (pre rest : List Char) (hpre : '<' ∉ pre) :
    strIndexOf (pre ++ (MGMT_VALUE_START_S ++ rest)) MGMT_VALUE_START_S
      = some pre.length := by
  unfold strIndexOf
  rw [strIndexOfAux_skip_pre _ (by rfl) pre hpre _ 0,
    strIndexOfAux_of_prefix _ _ (List.isPrefixOf_iff_prefix.mpr (List.prefix_append _ _))]
  simp

lemma strIndexOf_end_marker (pre s suf : List Char) (hpre : '<' ∉ pre) (hs : '<' ∉ s) :
    strIndexOf (pre ++ (MGMT_VALUE_START_S ++ (s ++ (MGMT_VALUE_END_S ++ suf))))
      MGMT_VALUE_END_S = some (pre.length + 7 + s.length) := by
  unfold strIndexOf
  rw [strIndexOfAux_skip_pre _ (by rfl) pre hpre _ 0,
    strIndexOfAux_end_over_start, strIndexOfAux_end_over_s s suf hs]
  congr 1
  omega

/-- C7: `_evaluate` locates the `<minny>`/`</minny>` delimiters in the
captured stdout, parses the enclosed text as a Python literal and returns
that value together with the re-emitted prefix/suffix text (so
`_evaluate("1+1")` — whose wrapped script makes the device print
`<minny>2</minny>` — returns the integer 2, and `_evaluate("'x'*3")` —
device output `<minny>'xxx'</minny>` — returns the string "xxx"), and
raises a ManagementError when stderr is non-empty, when either delimiter is
missing, or when the enclosed text fails to parse as a literal. -/
theorem C7_evaluate_behaviour (pre s suf : List Char) (v : PyVal)
    (hpre : '<' ∉ pre) (hs : '<' ∉ s) (hval : literalEval s = some v) :
    evaluateOutput (pre ++ (MGMT_VALUE_START_S ++ (s ++ (MGMT_VALUE_END_S ++ suf)))) []
      = .ok (v, pre, suf)
    ∧ (∀ out err, err ≠ [] → evaluateOutput out err = .error .scriptErrors)
    ∧ (∀ out, (strIndexOf out MGMT_VALUE_START_S = none
        ∨ strIndexOf out MGMT_VALUE_END_S = none) →
        evaluateOutput out [] = .error .markersMissing)
    ∧ (∀ bad, literalEval bad = none → '<' ∉ bad →
        evaluateOutput (MGMT_VALUE_START_S ++ (bad ++ (MGMT_VALUE_END_S ++ []))) []
          = .error .parseFailed)
    ∧ evaluateOutput ['<', 'm', 'i', 'n', 'n', 'y', '>', '2', '<', '/', 'm', 'i',
        'n', 'n', 'y', '>'] [] = .ok (.int 2, [], [])
    ∧ evaluateOutput (['<', 'm', 'i', 'n', 'n', 'y', '>', quoteChar, 'x', 'x', 'x',
        quoteChar] ++ ['<', '/', 'm', 'i', 'n', 'n', 'y', '>']) []
        = .ok (.str ['x', 'x', 'x'], [], []) := by
  have main : ∀ (pre s suf : List Char), '<' ∉ pre → '<' ∉ s →
      ∀ r, literalEval s = r →
      evaluateOutput (pre ++ (MGMT_VALUE_START_S ++ (s ++ (MGMT_VALUE_END_S ++ suf)))) []
        = match r with
          | some v => .ok (v, pre, suf)
          | none => .error .parseFailed := by
    intro pre s suf hpre hs r hr
    unfold evaluateOutput
    rw [if_neg (by simp)]
    rw [strIndexOf_start_marker pre _ hpre, strIndexOf_end_marker pre s suf hpre hs]
    have hdrop : (pre ++ (MGMT_VALUE_START_S ++ (s ++ (MGMT_VALUE_END_S ++ suf)))).drop
        (pre.length + MGMT_VALUE_START_S.length) = s ++ (MGMT_VALUE_END_S ++ suf) := by
      rw [← List.append_assoc, ← List.length_append, List.drop_left]
    have htakePre : (pre ++ (MGMT_VALUE_START_S ++ (s ++ (MGMT_VALUE_END_S ++ suf)))).take
        pre.length = pre := List.take_left _ _
    have hdropSuf : (pre ++ (MGMT_VALUE_START_S ++ (s ++ (MGMT_VALUE_END_S ++ suf)))).drop
        (pre.length + 7 + s.length + MGMT_VALUE_END_S.length) = suf := by
      have : pre ++ (MGMT_VALUE_START_S ++ (s ++ (MGMT_VALUE_END_S ++ suf)))
          = (pre ++ MGMT_VALUE_START_S ++ s ++ MGMT_VALUE_END_S) ++ suf := by
        simp [List.append_assoc]
      rw [this]
      have hlen : (pre ++ MGMT_VALUE_START_S ++ s ++ MGMT_VALUE_END_S).length
          = pre.length + 7 + s.length + MGMT_VALUE_END_S.length := by
        simp [MGMT_VALUE_START_S]
        omega
      rw [← hlen, List.drop_left]
    have hslice : ((pre ++ (MGMT_VALUE_START_S ++ (s ++ (MGMT_VALUE_END_S ++ suf)))).drop
        (pre.length + MGMT_VALUE_START_S.length)).take
        (pre.length + 7 + s.length - (pre.length + MGMT_VALUE_START_S.length)) = s := by
      rw [hdrop]
      have : pre.length + 7 + s.length - (pre.length + MGMT_VALUE_START_S.length)
          = s.length := by
        simp [MGMT_VALUE_START_S]
      rw [this, List.take_left]
    dsimp only
    rw [hslice, hr, htakePre, hdropSuf]
  refine ⟨?_, ?_, ?_, ?_, ?_, ?_⟩
  · have := main pre s suf hpre hs (some v) hval
    simpa using this
  · intro out err herr
    unfold evaluateOutput
    rw [if_pos herr]
  · intro out hnone
    unfold evaluateOutput
    rw [if_neg (by simp)]
    rcases hnone with h | h
    · rw [h]
    · rw [h]
      rcases strIndexOf out MGMT_VALUE_START_S with _ | e <;> rfl
  · intro bad hbad hblt
    have := main [] bad [] (by simp) hblt none hbad
    simpa using this
  · have h2 := main [] ['2'] [] (by simp) (by decide) (some (.int 2)) (by decide)
    simpa using h2
  · have h3 := main [] [quoteChar, 'x', 'x', 'x', quoteChar] [] (by simp) (by decide)
      (some (.str ['x', 'x', 'x'])) (by decide)
    simpa using h3

/-- Witness for C7 at concrete inputs. -/
theorem C7_evaluate_behaviour_witness :
    evaluateOutput (['!'] ++ (MGMT_VALUE_START_S ++ (['4', '2']
      ++ (MGMT_VALUE_END_S ++ ['?'])))) [] = .ok (.int 42, ['!'], ['?']) :=
  (C7_evaluate_behaviour ['!'] ['4', '2'] ['?'] (.int 42)
    (by decide) (by decide) (by decide)).1

/-! ### C4 theorems -/

lemma rawPasteLoop_bound (cmd : List Nat) (W : Nat) :
    ∀ fuel (conn : Conn) (i wr : Nat) (p : List RPEvent),
      p <+: (rawPasteLoop cmd W fuel conn i wr).2 →
      rpSentSum p ≤ wr + W * rpGrows p := by
  intro fuel
  induction fuel with
  | zero =>
    intro conn i wr p hp
    simp only [rawPasteLoop] at hp
    rw [List.prefix_nil.mp hp]
    simp [rpSentSum]
  | succ n ih =>
    intro conn i wr p hp
    simp only [rawPasteLoop] at hp
    split at hp
    · split at hp
      · rcases hr : softReadLong 1 conn with ⟨d, conn'⟩
        rw [hr] at hp
        by_cases h1 : d = [1]
        · rw [if_pos h1] at hp
          rcases hl : rawPasteLoop cmd W n conn' i (wr + W) with ⟨o, tr⟩
          rw [hl] at hp
          dsimp only at hp
          cases p with
          | nil => simp [rpSentSum]
          | cons e q =>
            obtain ⟨rfl, hq⟩ := (List.cons_prefix_cons).mp hp
            have hrec := ih conn' i (wr + W) q (by rw [hl]; exact hq)
            have h1' : rpSentSum (RPEvent.grow :: q) = rpSentSum q := by
              simp [rpSentSum]
            have h2' : rpGrows (RPEvent.grow :: q) = 1 + rpGrows q := by
              simp [rpGrows]
            rw [h1', h2', Nat.mul_add, Nat.mul_one]
            omega
        · rw [if_neg h1] at hp
          by_cases h4 : d = [4]
          · rw [if_pos h4] at hp
            rw [List.prefix_nil.mp hp]
            simp [rpSentSum]
          · rw [if_neg h4] at hp
            rw [List.prefix_nil.mp hp]
            simp [rpSentSum]
      · rcases hl : rawPasteLoop cmd W n conn
            (i + ((cmd.drop i).take wr).length) (wr - ((cmd.drop i).take wr).length)
            with ⟨o, tr⟩
        rw [hl] at hp
        dsimp only at hp
        cases p with
        | nil => simp [rpSentSum]
        | cons e q =>
          obtain ⟨rfl, hq⟩ := (List.cons_prefix_cons).mp hp
          have hrec := ih conn (i + ((cmd.drop i).take wr).length)
            (wr - ((cmd.drop i).take wr).length) q (by rw [hl]; exact hq)
          have hle : ((cmd.drop i).take wr).length ≤ wr := by
            rw [List.length_take]
            omega
          have h1' : rpSentSum (RPEvent.sent ((cmd.drop i).take wr) :: q)
              = ((cmd.drop i).take wr).length + rpSentSum q := by
            simp [rpSentSum]
          have h2' : rpGrows (RPEvent.sent ((cmd.drop i).take wr) :: q) = rpGrows q := by
            simp [rpGrows]
          rw [h1', h2']
          omega
    · rcases softReadUntilLong [4] conn with ⟨data, c⟩
      split at hp <;>
        · rw [List.prefix_nil.mp hp]
          simp [rpSentSum]

lemma rawPasteLoop_complete (cmd : List Nat) (W : Nat) :
    ∀ fuel (conn : Conn) (i wr : Nat) (o : RPOutcome) (tr : List RPEvent),
      rawPasteLoop cmd W fuel conn i wr = (o, tr) → o = .completed →
      (rpChunks tr).flatten = cmd.drop i := by
  intro fuel
  induction fuel with
  | zero =>
    intro conn i wr o tr h ho
    simp only [rawPasteLoop] at h
    cases h
    simp at ho
  | succ n ih =>
    intro conn i wr o tr h ho
    simp only [rawPasteLoop] at h
    split at h
    · next hi =>
      split at h
      · rcases hr : softReadLong 1 conn with ⟨d, conn'⟩
        rw [hr] at h
        by_cases h1 : d = [1]
        · rw [if_pos h1] at h
          rcases hl : rawPasteLoop cmd W n conn' i (wr + W) with ⟨o', tr'⟩
          rw [hl] at h
          dsimp only at h
          injection h with hA hB
          subst hA
          subst hB
          have := ih conn' i (wr + W) o' tr' hl ho
          simpa [rpChunks] using this
        · rw [if_neg h1] at h
          by_cases h4 : d = [4]
          · rw [if_pos h4] at h
            cases h
            simp at ho
          · rw [if_neg h4] at h
            cases h
            simp at ho
      · rcases hl : rawPasteLoop cmd W n conn
            (i + ((cmd.drop i).take wr).length) (wr - ((cmd.drop i).take wr).length)
            with ⟨o', tr'⟩
        rw [hl] at h
        dsimp only at h
        injection h with hA hB
        subst hA
        subst hB
        have hrec := ih conn (i + ((cmd.drop i).take wr).length)
          (wr - ((cmd.drop i).take wr).length) o' tr' hl ho
        simp only [rpChunks, List.filterMap_cons, List.flatten_cons] at hrec ⊢
        rw [hrec]
        rw [← List.drop_drop ((cmd.drop i).take wr).length i cmd]
        by_cases hcase : wr ≤ (cmd.drop i).length
        · have hlen : ((cmd.drop i).take wr).length = wr := by
            rw [List.length_take]
            omega
          rw [hlen, List.take_append_drop]
        · push_neg at hcase
          have hto : (cmd.drop i).take wr = cmd.drop i :=
            List.take_of_length_le (by omega)
          rw [hto]
          rw [List.drop_of_length_le le_rfl, List.append_nil]
    · next hi =>
      rcases hu : softReadUntilLong [4] conn with ⟨data, c⟩
      rw [hu] at h
      split at h
      · cases h
        simp only [rpChunks, List.filterMap_nil, List.flatten_nil]
        rw [List.drop_of_length_le (by omega)]
      · cases h
        simp at ho

lemma rawPasteLoop_abort_eot (cmd : List Nat) (W fuel : Nat) (conn : Conn) (i wr : Nat)
    (hi : i < cmd.length) (hw : wr = 0 ∨ ¬ conn.incomingIsEmpty)
    (hd : (softReadLong 1 conn).1 = [4]) :
    rawPasteLoop cmd W (fuel + 1) conn i wr = (.abruptEnd, []) := by
  simp only [rawPasteLoop]
  rw [if_pos hi, if_pos (by simpa using hw)]
  rcases hr : softReadLong 1 conn with ⟨d, conn'⟩
  rw [hr] at hd
  dsimp only at hd
  subst hd
  rfl

lemma rawPasteLoop_abort_other (cmd : List Nat) (W fuel : Nat) (conn : Conn) (i wr : Nat)
    (d : List Nat) (hi : i < cmd.length) (hw : wr = 0 ∨ ¬ conn.incomingIsEmpty)
    (hd : (softReadLong 1 conn).1 = d) (h1 : d ≠ [1]) (h4 : d ≠ [4]) :
    rawPasteLoop cmd W (fuel + 1) conn i wr = (.unexpectedRead, []) := by
  simp only [rawPasteLoop]
  rw [if_pos hi, if_pos (by simpa using hw)]
  rcases hr : softReadLong 1 conn with ⟨d', conn'⟩
  rw [hr] at hd
  dsimp only at hd
  subst hd
  rw [if_neg h1, if_neg h4]

/-- C4: after reading the 2-byte little-endian window size
`W = b0 | (b1 << 8)`, the raw-paste writer (i) never has more bytes
outstanding than `W` plus `W` times the number of 0x01 continuation signals
received so far — in particular each chunk fits the remaining window —,
(ii) on completion the concatenation of all sent chunks equals the whole
payload with no duplication or loss, and (iii) receiving 0x04, or any byte
other than 0x01, while waiting for flow control aborts with a
ProtocolError. -/
theorem C4_raw_paste_flow_control (cmd : List Nat) (b0 b1 fuel : Nat)
    (rest : List Nat) (future : List (List Nat)) :
    (raw_paste_write cmd fuel ⟨b0 :: b1 :: rest, future⟩
      = rawPasteLoop cmd (b0 ||| (b1 <<< 8)) fuel ⟨rest, future⟩ 0 (b0 ||| (b1 <<< 8)))
    ∧ (∀ W fuel' (conn : Conn) (p : List RPEvent),
        p <+: (rawPasteLoop cmd W fuel' conn 0 W).2 →
        rpSentSum p ≤ W * (1 + rpGrows p))
    ∧ (∀ W fuel' (conn : Conn),
        (rawPasteLoop cmd W fuel' conn 0 W).1 = .completed →
        (rpChunks (rawPasteLoop cmd W fuel' conn 0 W).2).flatten = cmd)
    ∧ (∀ W fuel' (conn : Conn) (i wr : Nat), i < cmd.length →
        (wr = 0 ∨ ¬ conn.incomingIsEmpty) → (softReadLong 1 conn).1 = [4] →
        rawPasteLoop cmd W (fuel' + 1) conn i wr = (.abruptEnd, []))
    ∧ (∀ W fuel' (conn : Conn) (i wr : Nat) (d : List Nat), i < cmd.length →
        (wr = 0 ∨ ¬ conn.incomingIsEmpty) → (softReadLong 1 conn).1 = d →
        d ≠ [1] → d ≠ [4] →
        rawPasteLoop cmd W (fuel' + 1) conn i wr = (.unexpectedRead, [])) := by
  refine ⟨?_, ?_, ?_, ?_, ?_⟩
  · simp [raw_paste_write, softReadLong, softReadLongAux]
  · intro W fuel' conn p hp
    have := rawPasteLoop_bound cmd W fuel' conn 0 W p hp
    calc rpSentSum p ≤ W + W * rpGrows p := this
    _ = W * (1 + rpGrows p) := by ring
  · intro W fuel' conn h
    have hE : rawPasteLoop cmd W fuel' conn 0 W
        = ((rawPasteLoop cmd W fuel' conn 0 W).1, (rawPasteLoop cmd W fuel' conn 0 W).2) :=
      rfl
    simpa using rawPasteLoop_complete cmd W fuel' conn 0 W _ _ hE h
  · exact fun W fuel' conn i wr hi hw hd =>
      rawPasteLoop_abort_eot cmd W fuel' conn i wr hi hw hd
  · exact fun W fuel' conn i wr d hi hw hd h1 h4 =>
      rawPasteLoop_abort_other cmd W fuel' conn i wr d hi hw hd h1 h4

/-- Witness for C4 at concrete inputs: window size 2, payload of 3 bytes
needing one continuation signal; and a 0x04 abort. -/
theorem C4_raw_paste_flow_control_witness :
    rawPasteLoop [7, 8, 9] 2 6 ⟨[], [[1], [4]]⟩ 0 2 = (.completed,
      [.sent [7, 8], .grow, .sent [9]])
    ∧ (rpChunks [RPEvent.sent [7, 8], .grow, .sent [9]]).flatten = [7, 8, 9]
    ∧ rpSentSum [RPEvent.sent [7, 8]] ≤ 2 * (1 + rpGrows [RPEvent.sent [7, 8]])
    ∧ rawPasteLoop [7, 8, 9] 2 1 ⟨[4], []⟩ 0 0 = (.abruptEnd, []) := by
  refine ⟨by rfl, ?_, ?_, ?_⟩
  · have h := (C4_raw_paste_flow_control [7, 8, 9] 2 0 6 [] []).2.2.1 2 6 ⟨[], [[1], [4]]⟩
      (by rfl)
    simpa using h
  · exact (C4_raw_paste_flow_control [7, 8, 9] 2 0 6 [] []).2.1 2 6 ⟨[], [[1], [4]]⟩
      [RPEvent.sent [7, 8]] (by rw [show (rawPasteLoop [7, 8, 9] 2 6 ⟨[], [[1], [4]]⟩ 0 2).2
        = [RPEvent.sent [7, 8], .grow, .sent [9]] from by rfl]; exact ⟨[RPEvent.grow,
        .sent [9]], rfl⟩)
  · exact (C4_raw_paste_flow_control [7, 8, 9] 2 0 0 [] []).2.2.2.1 2 0 ⟨[4], []⟩ 0 0
      (by decide) (Or.inl rfl) (by rfl)

/-! ### C3 theorems -/

/-- C3 counterexample: when the device answers the raw-paste command with
the refusal `b"R\x00"`, `_submit_code` does NOT downgrade the connection to
raw mode — it prints an error and terminates the process with exit status 1,
so no submission (raw or otherwise) ever happens afterwards. -/
theorem C3_refusal_counterexample :
    submit_code .rawPaste [97] 1 RAW_PROMPT ⟨[0x52, 0x00], []⟩ = .exitedProcess 1
    ∧ submit_code .rawPaste [97] 1 RAW_PROMPT ⟨[0x52, 0x00], []⟩ ≠ .submittedRaw := by
  exact ⟨rfl, by decide⟩

/-- C3 amended: if the device answers the 3-byte raw-paste command with the
refusal response `b"R\x00"`, `_submit_code_via_raw_paste_mode` raises the
typed `RawPasteNotSupportedError` without retrying; `_submit_code` catches
it, reports the error and terminates the process with exit status 1 — there
is no downgrade to raw mode and no further raw-paste attempt (nor any other
submission) for the life of the connection. -/
theorem C3_refusal_terminates (script : List Nat) (fuel : Nat) (rest : List Nat)
    (future : List (List Nat)) (lastPrompt : List Nat)
    (h : atRawPrompt lastPrompt = true) :
    submit_code_via_raw_paste_mode script fuel lastPrompt ⟨0x52 :: 0x00 :: rest, future⟩
      = .notSupported
    ∧ submit_code .rawPaste script fuel lastPrompt ⟨0x52 :: 0x00 :: rest, future⟩
      = .exitedProcess 1 := by
  have hresp : softReadLong 2 ⟨0x52 :: 0x00 :: rest, future⟩
      = ([0x52, 0x00], ⟨rest, future⟩) := by
    simp [softReadLong, softReadLongAux]
  have hattempt : rawPasteAttemptOnce script fuel ⟨0x52 :: 0x00 :: rest, future⟩
      = .inl .notSupported := by
    unfold rawPasteAttemptOnce
    rw [hresp]
    dsimp only
    rw [if_neg (by decide), if_pos (by decide)]
  have hmode : submit_code_via_raw_paste_mode script fuel lastPrompt
      ⟨0x52 :: 0x00 :: rest, future⟩ = .notSupported := by
    unfold submit_code_via_raw_paste_mode
    rw [if_neg (by simp [h])]
    rw [hattempt]
  refine ⟨hmode, ?_⟩
  unfold submit_code
  rw [hmode]

/-- Witness for C3 amended at a concrete input. -/
theorem C3_refusal_terminates_witness :
    submit_code_via_raw_paste_mode [97] 1 RAW_PROMPT ⟨[0x52, 0x00], []⟩ = .notSupported
    ∧ submit_code .rawPaste [97] 1 RAW_PROMPT ⟨[0x52, 0x00], []⟩ = .exitedProcess 1 :=
  C3_refusal_terminates [97] 1 [] [] RAW_PROMPT (by decide)

/-! ### C1/C6 theorems -/

lemma natIsPrefixOf_cons_ne (p0 : Nat) (pt : List Nat) (c : Nat) (rest : List Nat)
    (h : p0 ≠ c) : (p0 :: pt).isPrefixOf (c :: rest) = false := by
  simp [List.isPrefixOf, h]

lemma not_suffixOf_of_not_mem (p s : List Nat) (b : Nat) (hb : b ∈ p) (hs : b ∉ s) :
    p.isSuffixOf s = false := by
  rcases h : p.isSuffixOf s with _ | _
  · rfl
  · exact absurd ((List.isSuffixOf_iff_suffix.mp h).subset hb) hs

lemma suffix_append_bool (p t : List Nat) : p.isSuffixOf (t ++ p) = true :=
  List.isSuffixOf_iff_suffix.mpr ⟨t, rfl⟩

lemma closersNone (d : Nat) (rest : List Nat)
    (h4 : d ≠ 4) (h10 : d ≠ 10) (h62 : d ≠ 62) (h114 : d ≠ 114) :
    CLOSERS.find? (fun c => c.isPrefixOf (d :: rest)) = none := by
  have e1 : NORMAL_PROMPT.isPrefixOf (d :: rest) = false :=
    natIsPrefixOf_cons_ne 62 _ d rest (fun hh => h62 hh.symm)
  have e2 : LF.isPrefixOf (d :: rest) = false :=
    natIsPrefixOf_cons_ne 10 _ d rest (fun hh => h10 hh.symm)
  have e3 : (EOT ++ RAW_PROMPT).isPrefixOf (d :: rest) = false :=
    natIsPrefixOf_cons_ne 4 _ d rest (fun hh => h4 hh.symm)
  have e4 : FIRST_RAW_PROMPT.isPrefixOf (d :: rest) = false :=
    natIsPrefixOf_cons_ne 114 _ d rest (fun hh => h114 hh.symm)
  have e5 : W600_FIRST_RAW_PROMPT.isPrefixOf (d :: rest) = false :=
    natIsPrefixOf_cons_ne 114 _ d rest (fun hh => h114 hh.symm)
  simp [CLOSERS, List.find?, e1, e2, e3, e4, e5]

lemma closersAtEot (t : List Nat) (ht : t.head? ≠ some 62) :
    CLOSERS.find? (fun c => c.isPrefixOf (4 :: t)) = none := by
  have e3 : (EOT ++ RAW_PROMPT).isPrefixOf (4 :: t) = false := by
    cases t with
    | nil => rfl
    | cons x xs =>
      have hx : x ≠ 62 := fun hh => ht (by rw [hh]; rfl)
      show ((4 : Nat) :: [62]).isPrefixOf (4 :: x :: xs) = false
      have : ((62 : Nat) == x) = false := beq_eq_false_iff_ne.mpr (fun hh => hx hh.symm)
      simp [List.isPrefixOf, this]
  have e1 : NORMAL_PROMPT.isPrefixOf (4 :: t) = false :=
    natIsPrefixOf_cons_ne 62 _ 4 t (by decide)
  have e2 : LF.isPrefixOf (4 :: t) = false :=
    natIsPrefixOf_cons_ne 10 _ 4 t (by decide)
  have e4 : FIRST_RAW_PROMPT.isPrefixOf (4 :: t) = false :=
    natIsPrefixOf_cons_ne 114 _ 4 t (by decide)
  have e5 : W600_FIRST_RAW_PROMPT.isPrefixOf (4 :: t) = false :=
    natIsPrefixOf_cons_ne 114 _ 4 t (by decide)
  simp [CLOSERS, List.find?, e1, e2, e3, e4, e5]

lemma closersFinal (rest : List Nat) :
    CLOSERS.find? (fun c => c.isPrefixOf (4 :: 62 :: rest)) = some (EOT ++ RAW_PROMPT) := by
  have e1 : NORMAL_PROMPT.isPrefixOf (4 :: 62 :: rest) = false :=
    natIsPrefixOf_cons_ne 62 _ 4 _ (by decide)
  have e2 : LF.isPrefixOf (4 :: 62 :: rest) = false :=
    natIsPrefixOf_cons_ne 10 _ 4 _ (by decide)
  have e3 : (EOT ++ RAW_PROMPT).isPrefixOf (4 :: 62 :: rest) = true := by
    show ((4 : Nat) :: [62]).isPrefixOf (4 :: 62 :: rest) = true
    simp [List.isPrefixOf]
  simp [CLOSERS, List.find?, e1, e2, e3]

lemma closersNormal (rest : List Nat) :
    CLOSERS.find? (fun c => c.isPrefixOf (62 :: 62 :: 62 :: 32 :: rest))
      = some NORMAL_PROMPT := by
  have e1 : NORMAL_PROMPT.isPrefixOf (62 :: 62 :: 62 :: 32 :: rest) = true := by
    show ((62 : Nat) :: [62, 62, 32]).isPrefixOf _ = true
    simp [List.isPrefixOf]
  simp [CLOSERS, List.find?, e1]

lemma fce_skip (d : Nat) (rest : List Nat) (k : Nat)
    (h4 : d ≠ 4) (h10 : d ≠ 10) (h62 : d ≠ 62) (h114 : d ≠ 114) :
    findClosersEndAux (d :: rest) k = findClosersEndAux rest (k + 1) := by
  simp [findClosersEndAux, closersNone d rest h4 h10 h62 h114]

lemma fce_err_tail (err : List Nat) (herr : ∀ b ∈ err, benignByte b) :
    ∀ k, findClosersEndAux (err ++ [4, 62]) k = some (k + (err.length + 2)) := by
  induction err with
  | nil =>
    intro k
    show findClosersEndAux (4 :: 62 :: []) k = _
    simp [findClosersEndAux, closersFinal, EOT, RAW_PROMPT]
  | cons e err ih =>
    intro k
    obtain ⟨he4, he10, he62, he114, _⟩ := herr e (List.mem_cons_self _ _)
    rw [List.cons_append, fce_skip e _ k he4 he10 he62 he114,
      ih (fun b hb => herr b (List.mem_cons_of_mem _ hb)) (k + 1)]
    congr 1
    simp only [List.length_cons]
    omega

lemma fce_stream (out err : List Nat) (hout : ∀ b ∈ out, benignByte b)
    (herr : ∀ b ∈ err, benignByte b) :
    ∀ k, findClosersEndAux (out ++ 4 :: (err ++ [4, 62])) k
      = some (k + (out.length + (err.length + 3))) := by
  induction out with
  | nil =>
    intro k
    have hhd : (err ++ [4, 62]).head? ≠ some 62 := by
      cases err with
      | nil => simp
      | cons e err =>
        obtain ⟨_, _, he62, _, _⟩ := herr e (List.mem_cons_self _ _)
        simpa using he62
    show findClosersEndAux (4 :: (err ++ [4, 62])) k = _
    rw [show findClosersEndAux (4 :: (err ++ [4, 62])) k
        = findClosersEndAux (err ++ [4, 62]) (k + 1) from by
      simp [findClosersEndAux, closersAtEot _ hhd]]
    rw [fce_err_tail err herr (k + 1)]
    congr 1
    simp only [List.length_nil]
    omega
  | cons o out ih =>
    intro k
    obtain ⟨ho4, ho10, ho62, ho114, _⟩ := hout o (List.mem_cons_self _ _)
    rw [List.cons_append, fce_skip o _ k ho4 ho10 ho62 ho114,
      ih (fun b hb => hout b (List.mem_cons_of_mem _ hb)) (k + 1)]
    congr 1
    simp only [List.length_cons]
    omega

lemma fce_norm (out : List Nat) (hout : ∀ b ∈ out, benignByte b) :
    ∀ k, findClosersEndAux (out ++ NORMAL_PROMPT) k = some (k + (out.length + 4)) := by
  induction out with
  | nil =>
    intro k
    show findClosersEndAux (62 :: 62 :: 62 :: 32 :: []) k = _
    simp [findClosersEndAux, closersNormal, NORMAL_PROMPT]
  | cons o out ih =>
    intro k
    obtain ⟨ho4, ho10, ho62, ho114, _⟩ := hout o (List.mem_cons_self _ _)
    rw [List.cons_append, fce_skip o _ k ho4 ho10 ho62 ho114,
      ih (fun b hb => hout b (List.mem_cons_of_mem _ hb)) (k + 1)]
    congr 1
    simp only [List.length_cons]
    omega

lemma fce_normal_head (rest : List Nat) :
    findClosersEndAux (NORMAL_PROMPT ++ rest) 0 = some 4 := by
  show findClosersEndAux (62 :: 62 :: 62 :: 32 :: rest) 0 = some 4
  simp [findClosersEndAux, closersNormal, NORMAL_PROMPT]

lemma eotIdx_skip (d : Nat) (rest : List Nat) (i : Nat) (hd : d ≠ 4) :
    bytesIndexOfAux [4] (d :: rest) i = bytesIndexOfAux [4] rest (i + 1) := by
  simp [bytesIndexOfAux, natIsPrefixOf_cons_ne 4 [] d rest (fun hh => hd hh.symm)]

lemma eotIdx_hit (rest : List Nat) (i : Nat) :
    bytesIndexOfAux [4] (4 :: rest) i = some i := by
  simp [bytesIndexOfAux, List.isPrefixOf]

lemma eotIdx_stream (out : List Nat) (hout : ∀ b ∈ out, b ≠ 4) (rest : List Nat) :
    ∀ i, bytesIndexOfAux [4] (out ++ 4 :: rest) i = some (i + out.length) := by
  induction out with
  | nil => intro i; simpa using eotIdx_hit rest i
  | cons o out ih =>
    intro i
    rw [List.cons_append, eotIdx_skip o _ i (hout o (List.mem_cons_self _ _)),
      ih (fun b hb => hout b (List.mem_cons_of_mem _ hb)) (i + 1)]
    congr 1
    simp only [List.length_cons]
    omega

lemma eotIdx_none (l : List Nat) (h : ∀ b ∈ l, b ≠ 4) :
    ∀ i, bytesIndexOfAux [4] l i = none := by
  induction l with
  | nil => intro i; rfl
  | cons d rest ih =>
    intro i
    rw [eotIdx_skip d rest i (h d (List.mem_cons_self _ _)),
      ih (fun b hb => h b (List.mem_cons_of_mem _ hb)) (i + 1)]

lemma suffix_false_not (p s : List Nat) (h : p.isSuffixOf s = false) :
    ¬ (p.isSuffixOf s = true) := by
  simp [h]

lemma promptsFind_eotRaw (t : List Nat) :
    PROMPTS.find? (fun p => (promptBytes p).isSuffixOf (t ++ [4, 62]))
      = some .eotRaw := by
  rw [show PROMPTS = [PromptKind.eotRaw, .normal, .firstRaw, .w600] from rfl]
  exact List.find?_cons_of_pos _ (suffix_append_bool [4, 62] t)

lemma promptsFind_normal (l : List Nat) (h4 : (4 : Nat) ∉ l)
    (hn : NORMAL_PROMPT.isSuffixOf l = true) :
    PROMPTS.find? (fun p => (promptBytes p).isSuffixOf l) = some .normal := by
  rw [show PROMPTS = [PromptKind.eotRaw, .normal, .firstRaw, .w600] from rfl]
  rw [List.find?_cons_of_neg _ (by
    simpa using suffix_false_not _ _
      (not_suffixOf_of_not_mem (promptBytes .eotRaw) l 4 (by decide) h4))]
  exact List.find?_cons_of_pos _ hn

lemma strip_append_eotRaw (err : List Nat) (h62 : (62 : Nat) ∉ err)
    (h10 : (10 : Nat) ∉ err) :
    stripPromptsOnce (err ++ [4, 62]) = err := by
  unfold stripPromptsOnce
  rw [show PROMPTS = [PromptKind.eotRaw, .normal, .firstRaw, .w600] from rfl]
  simp only [List.foldl_cons, List.foldl_nil]
  have c1 : (promptBytes PromptKind.eotRaw).isSuffixOf (err ++ [4, 62]) = true :=
    suffix_append_bool [4, 62] err
  rw [if_pos c1]
  have htake : (err ++ [4, 62]).take
      ((err ++ [4, 62]).length - (promptBytes PromptKind.eotRaw).length) = err := by
    have : (err ++ [4, 62]).length - (promptBytes PromptKind.eotRaw).length
        = err.length := by
      simp [promptBytes, EOT, RAW_PROMPT]
    rw [this, List.take_left]
  rw [htake,
    if_neg (suffix_false_not _ _
      (not_suffixOf_of_not_mem (promptBytes .normal) err 62 (by decide) h62)),
    if_neg (suffix_false_not _ _
      (not_suffixOf_of_not_mem (promptBytes .firstRaw) err 10 (by decide) h10)),
    if_neg (suffix_false_not _ _
      (not_suffixOf_of_not_mem (promptBytes .w600) err 10 (by decide) h10))]

lemma strip_normal_tail (l : List Nat) (h4 : (4 : Nat) ∉ l) (h10 : (10 : Nat) ∉ l) :
    stripPromptsOnce (l ++ NORMAL_PROMPT) = l := by
  have h4' : (4 : Nat) ∉ l ++ NORMAL_PROMPT := by
    intro hm
    rcases List.mem_append.mp hm with hm | hm
    · exact h4 hm
    · exact absurd hm (by decide)
  unfold stripPromptsOnce
  rw [show PROMPTS = [PromptKind.eotRaw, .normal, .firstRaw, .w600] from rfl]
  simp only [List.foldl_cons, List.foldl_nil]
  have c0 : (promptBytes PromptKind.eotRaw).isSuffixOf (l ++ NORMAL_PROMPT) = false :=
    not_suffixOf_of_not_mem (promptBytes .eotRaw) _ 4 (by decide) h4'
  rw [if_neg (suffix_false_not _ _ c0)]
  have c1 : (promptBytes PromptKind.normal).isSuffixOf (l ++ NORMAL_PROMPT) = true :=
    suffix_append_bool NORMAL_PROMPT l
  rw [if_pos c1]
  have htake : (l ++ NORMAL_PROMPT).take
      ((l ++ NORMAL_PROMPT).length - (promptBytes PromptKind.normal).length) = l := by
    have : (l ++ NORMAL_PROMPT).length - (promptBytes PromptKind.normal).length
        = l.length := by
      simp [promptBytes, NORMAL_PROMPT]
    rw [this, List.take_left]
  rw [htake,
    if_neg (suffix_false_not _ _
      (not_suffixOf_of_not_mem (promptBytes .firstRaw) l 10 (by decide) h10)),
    if_neg (suffix_false_not _ _
      (not_suffixOf_of_not_mem (promptBytes .w600) l 10 (by decide) h10))]

/-- C1: for a script submitted through any of the three submission modes,
capturing `_execute` returns exactly the device's output before its next
active prompt, split into stdout and stderr at the embedded EOT: for a
raw-mode response `out ++ EOT ++ err ++ EOT ++ raw-prompt` (with `out`,
`err` free of protocol bytes), the embedded EOT — not followed by the raw
prompt byte — switches the stream, every byte before it is captured as
stdout and every byte after it as stderr, and scanning terminates at the
EOT+raw-prompt terminator. -/
theorem C1_capture_eot_split (mode : SubmitMode) (out err : List Nat)
    (hout : ∀ b ∈ out, benignByte b) (herr : ∀ b ∈ err, benignByte b) :
    execute_capture mode 1 ⟨out ++ 4 :: (err ++ [4, 62]), []⟩
      = some (out, err, .eotRaw) := by
  have hout4 : ∀ b ∈ out, b ≠ 4 := fun b hb => (hout b hb).1
  have h62err : (62 : Nat) ∉ err := fun hm => (herr 62 hm).2.2.1 rfl
  have h10err : (10 : Nat) ∉ err := fun hm => (herr 10 hm).2.1 rfl
  have h1 : softReadUntilShort ⟨out ++ 4 :: (err ++ [4, 62]), []⟩
      = (out ++ 4 :: (err ++ [4, 62]), ⟨[], []⟩) := by
    unfold softReadUntilShort findClosersEnd
    rw [fce_stream out err hout herr 0]
    dsimp only
    have hlen : 0 + (out.length + (err.length + 3))
        = (out ++ 4 :: (err ++ [4, 62])).length := by
      simp only [List.length_append, List.length_cons, List.length_nil]
      omega
    rw [hlen, List.take_length, List.drop_length]
  have hdropPlus : (out ++ 4 :: (err ++ [4, 62])).drop (out.length + 1)
      = err ++ [4, 62] := by
    rw [show out ++ 4 :: (err ++ [4, 62]) = (out ++ [4]) ++ (err ++ [4, 62]) from by simp,
      show out.length + 1 = (out ++ [4]).length from by simp]
    exact List.drop_left _ _
  have hsplit : eotSplit mode .stdout [] [] (out ++ 4 :: (err ++ [4, 62]))
      = (err ++ [4, 62], [], [(out, .stdout)], .stderr) := by
    unfold eotSplit
    rw [show bytesIndexOfAux [4] (out ++ 4 :: (err ++ [4, 62])) 0 = some out.length from by
      simpa using eotIdx_stream out hout4 _ 0]
    dsimp only
    rw [List.drop_left]
    have htake2 : (4 :: (err ++ [4, 62])).take 2 ≠ EOT ++ RAW_PROMPT := by
      cases err with
      | nil => decide
      | cons e err2 =>
        have he62 : e ≠ 62 := (herr e (List.mem_cons_self _ _)).2.2.1
        intro hcontra
        rw [show EOT ++ RAW_PROMPT = [4, 62] from rfl] at hcontra
        simp [List.take, he62] at hcontra
    rw [if_pos ⟨htake2, rfl⟩, hdropPlus, List.take_left]
    simp
  unfold execute_capture scanLoop scanIter initScan
  rw [h1]
  dsimp only
  rw [hsplit]
  dsimp only
  rw [if_neg (by simp)]
  rw [show ([] : List Nat) ++ (err ++ [4, 62]) = err ++ [4, 62] from rfl]
  rw [promptsFind_eotRaw err]
  unfold promptFollowUp
  rw [show softRead1Short ⟨[], []⟩ = ([], ⟨[], []⟩) from rfl]
  dsimp only
  rw [if_neg (by decide), if_neg (by simp)]
  unfold promptActive
  rw [strip_append_eotRaw err h62err h10err]
  dsimp only
  simp [captureStream, List.filter]

/-- Witness for C1 at concrete inputs (out = "ab", err = "cd"). -/
theorem C1_capture_eot_split_witness :
    execute_capture .rawPaste 1 ⟨[97, 98] ++ 4 :: ([99, 100] ++ [4, 62]), []⟩
      = some ([97, 98], [99, 100], .eotRaw) :=
  C1_capture_eot_split .rawPaste [97, 98] [99, 100] (by decide) (by decide)

lemma benign_no4 (l : List Nat) (h : ∀ b ∈ l, benignByte b) : (4 : Nat) ∉ l :=
  fun hm => (h 4 hm).1 rfl

lemma benign_no10 (l : List Nat) (h : ∀ b ∈ l, benignByte b) : (10 : Nat) ∉ l :=
  fun hm => (h 10 hm).2.1 rfl

lemma no4_append_normal (l : List Nat) (h4 : (4 : Nat) ∉ l) :
    ∀ b ∈ l ++ NORMAL_PROMPT, b ≠ 4 := by
  intro b hb hbe
  subst hbe
  rcases List.mem_append.mp hb with hb | hb
  · exact h4 hb
  · exact absurd hb (by decide)

/-- One scanner iteration on an available burst `l ++ ">>> "` followed by
silence, with `pend` already buffered: the candidate prompt's one-byte
lookahead finds nothing, so the prompt is ACTIVE — the pending bytes are
flushed (trailing prompt stripped) and the scan returns the normal-prompt
marker, recording it as the last observed prompt. -/
lemma scanIter_active (l pend : List Nat) (E : List (List Nat × StreamName))
    (O : List (List Nat)) (L : Option PromptKind)
    (hben : ∀ b ∈ l, benignByte b) (hp4 : (4 : Nat) ∉ pend) (hp10 : (10 : Nat) ∉ pend) :
    scanIter .raw ⟨⟨l ++ NORMAL_PROMPT, []⟩, pend, .stdout, E, O, L⟩
      = .inr (.normal,
          ⟨⟨[], []⟩, [], .stdout, E ++ [(pend ++ l, .stdout)], O, some .normal⟩) := by
  have h4l : (4 : Nat) ∉ l := benign_no4 l hben
  have h10l : (10 : Nat) ∉ l := benign_no10 l hben
  have h1 : softReadUntilShort ⟨l ++ NORMAL_PROMPT, []⟩
      = (l ++ NORMAL_PROMPT, ⟨[], []⟩) := by
    unfold softReadUntilShort findClosersEnd
    rw [fce_norm l hben 0]
    dsimp only
    have hlen : 0 + (l.length + 4) = (l ++ NORMAL_PROMPT).length := by
      simp [NORMAL_PROMPT]
    rw [hlen, List.take_length, List.drop_length]
  have h2 : eotSplit .raw .stdout pend E (l ++ NORMAL_PROMPT)
      = (l ++ NORMAL_PROMPT, pend, E, .stdout) := by
    unfold eotSplit
    rw [eotIdx_none _ (no4_append_normal l h4l) 0]
    rw [if_neg (by simp)]
  have h4all : (4 : Nat) ∉ pend ++ (l ++ NORMAL_PROMPT) := by
    intro hm
    rcases List.mem_append.mp hm with hm | hm
    · exact hp4 hm
    · exact no4_append_normal l h4l 4 hm rfl
  have hsfx : NORMAL_PROMPT.isSuffixOf (pend ++ (l ++ NORMAL_PROMPT)) = true := by
    rw [← List.append_assoc]
    exact suffix_append_bool _ _
  have hfind : PROMPTS.find? (fun p => (promptBytes p).isSuffixOf (pend ++ (l ++ NORMAL_PROMPT)))
      = some .normal := promptsFind_normal _ h4all hsfx
  have hstrip : stripPromptsOnce (pend ++ (l ++ NORMAL_PROMPT)) = pend ++ l := by
    rw [← List.append_assoc]
    exact strip_normal_tail (pend ++ l)
      (fun hm => (List.mem_append.mp hm).elim (fun hh => hp4 hh) (fun hh => h4l hh))
      (fun hm => (List.mem_append.mp hm).elim (fun hh => hp10 hh) (fun hh => h10l hh))
  unfold scanIter
  rw [h1]
  dsimp only
  rw [h2]
  dsimp only
  rw [if_neg (fun hc => by simpa [NORMAL_PROMPT] using congrArg List.length hc.1)]
  rw [hfind]
  unfold promptFollowUp
  rw [show softRead1Short ⟨[], []⟩ = ([], ⟨[], []⟩) from rfl]
  dsimp only
  rw [if_neg (by decide), if_neg (by simp)]
  unfold promptActive
  rw [hstrip]

/-- One scanner iteration when the prompt in the buffer is immediately
followed by more available bytes: the lookahead byte arrives, the prompt is
judged INACTIVE, the byte is pushed back via `unread` and scanning
continues (no return, nothing flushed, no prompt recorded). -/
lemma scanIter_inactive (x : List Nat) (hx : ∀ b ∈ x, benignByte b) (hne : x ≠ []) :
    scanIter .raw (initScan ⟨NORMAL_PROMPT ++ (x ++ NORMAL_PROMPT), []⟩)
      = .inl ⟨⟨x ++ NORMAL_PROMPT, []⟩, NORMAL_PROMPT, .stdout, [], [], none⟩ := by
  obtain ⟨x0, x', rfl⟩ : ∃ x0 x', x = x0 :: x' := by
    cases x with
    | nil => exact absurd rfl hne
    | cons a t => exact ⟨a, t, rfl⟩
  obtain ⟨hx4, hx10, hx62, hx114, hx27⟩ := hx x0 (List.mem_cons_self _ _)
  have h1 : softReadUntilShort ⟨NORMAL_PROMPT ++ ((x0 :: x') ++ NORMAL_PROMPT), []⟩
      = (NORMAL_PROMPT, ⟨(x0 :: x') ++ NORMAL_PROMPT, []⟩) := by
    unfold softReadUntilShort findClosersEnd
    rw [fce_normal_head _]
    dsimp only
    rw [show (4 : Nat) = NORMAL_PROMPT.length from rfl, List.take_left, List.drop_left]
  have h2 : eotSplit .raw .stdout [] [] NORMAL_PROMPT
      = (NORMAL_PROMPT, [], [], .stdout) := by
    unfold eotSplit
    rw [eotIdx_none _ (by decide) 0]
    rw [if_neg (by simp)]
  have hfind : PROMPTS.find?
      (fun p => (promptBytes p).isSuffixOf (([] : List Nat) ++ NORMAL_PROMPT))
      = some .normal := by
    exact promptsFind_normal _ (by decide) (by decide)
  unfold scanIter initScan
  rw [h1]
  dsimp only
  rw [h2]
  dsimp only
  rw [if_neg (by simp [NORMAL_PROMPT])]
  rw [hfind]
  unfold promptFollowUp
  rw [show softRead1Short ⟨(x0 :: x') ++ NORMAL_PROMPT, []⟩
      = ([x0], ⟨x' ++ NORMAL_PROMPT, []⟩) from rfl]
  dsimp only
  rw [if_neg (by simp [ESC, hx27]), if_pos (by simp)]
  rfl

/-- C6: when the buffered data ends with the normal-prompt marker `">>> "`,
the scanner's one-byte lookahead decides activity: (i) if nothing follows
within the lookahead window, the scan terminates, returns the prompt marker
and records it as the last observed prompt (flushing the preceding output);
(ii) if a byte arrives within the window, the prompt is treated as
inactive — the follow-up byte is pushed back via `unread`, nothing is
flushed, scanning does not terminate, and the prompt text is eventually
delivered as ordinary output once a later prompt is active. -/
theorem C6_prompt_lookahead (out x : List Nat)
    (hout : ∀ b ∈ out, benignByte b) (hx : ∀ b ∈ x, benignByte b) (hne : x ≠ []) :
    (scanLoop .raw 1 (initScan ⟨out ++ NORMAL_PROMPT, []⟩)
      = some (.normal, ⟨⟨[], []⟩, [], .stdout, [(out, .stdout)], [], some .normal⟩))
    ∧ (scanIter .raw (initScan ⟨NORMAL_PROMPT ++ (x ++ NORMAL_PROMPT), []⟩)
      = .inl ⟨⟨x ++ NORMAL_PROMPT, []⟩, NORMAL_PROMPT, .stdout, [], [], none⟩)
    ∧ (scanLoop .raw 2 (initScan ⟨NORMAL_PROMPT ++ (x ++ NORMAL_PROMPT), []⟩)
      = some (.normal,
          ⟨⟨[], []⟩, [], .stdout, [(NORMAL_PROMPT ++ x, .stdout)], [], some .normal⟩)) := by
  refine ⟨?_, scanIter_inactive x hx hne, ?_⟩
  · show scanLoop .raw 1 ⟨⟨out ++ NORMAL_PROMPT, []⟩, [], .stdout, [], [], none⟩ = _
    unfold scanLoop
    rw [scanIter_active out [] [] [] none hout (by simp) (by simp)]
    rfl
  · simp only [scanLoop]
    rw [scanIter_inactive x hx hne]
    dsimp only
    rw [scanIter_active x NORMAL_PROMPT [] [] none hx (by decide) (by decide)]
    rfl

/-- Witness for C6 at concrete inputs (out = "ab", follow-up byte "x"). -/
theorem C6_prompt_lookahead_witness :
    scanLoop .raw 1 (initScan ⟨[97, 98] ++ NORMAL_PROMPT, []⟩)
      = some (.normal, ⟨⟨[], []⟩, [], .stdout, [([97, 98], .stdout)], [], some .normal⟩)
    ∧ scanIter .raw (initScan ⟨NORMAL_PROMPT ++ ([120] ++ NORMAL_PROMPT), []⟩)
      = .inl ⟨⟨[120] ++ NORMAL_PROMPT, []⟩, NORMAL_PROMPT, .stdout, [], [], none⟩ :=
  ⟨(C6_prompt_lookahead [97, 98] [120] (by decide) (by decide) (by decide)).1,
   (C6_prompt_lookahead [97, 98] [120] (by decide) (by decide) (by decide)).2.1⟩

end Minny
